import Mathlib

/-!
# Verification development for `bench/client.go`

A shallow embedding of the benchmark client's request executor
(`Client.doRequest`, `Client.get`, `Client.post`, `Client.del`) and of
`Client.GetOrders`, followed by theorems about retirement, retrying and the
conditional-request cache.

Conventions of the embedding:

* Durations and clock readings are integers counted in one fixed unit (Go's
  `time.Duration` counts nanoseconds).  The clock is a natural number that only
  moves forward: a physical attempt advances it by the attempt's latency and
  `time.Sleep(RetryInterval)` advances it by `RetryInterval`; every other
  statement takes no time.
* The HTTP transport `c.hc.Do` is a function from the number of physical
  attempts already performed by the session and the request sent to the
  attempt's latency and outcome.
* The `for` loop of `doRequest` is unrolled by a fuel argument counting the
  iterations it may run; `none` means the fuel ran out before the loop returned.
* Library calls of `net/url`, `net/http` and `encoding/json` are fields of `Env`.
-/

namespace Bench

/-! ## Data model -/

/-- The constant `UserAgent`. -/
def UserAgent : String := "Isutrader/0.0.1"

/-- Go's `http.Header`: a map from header names to their values. -/
abbrev HTTPHeader := List (String × List String)

/-- `Header.Get`: the first value stored under a name. -/
def HTTPHeader.Get (h : HTTPHeader) (k : String) : Option String :=
  match h.lookup k with
  | some (v :: _) => some v
  | _ => none

/-- `Header.Values`: all values stored under a name. -/
def HTTPHeader.Values (h : HTTPHeader) (k : String) : List String :=
  (h.lookup k).getD []

/-- `Header.Set`: replace whatever is stored under a name by one value. -/
def HTTPHeader.Set (h : HTTPHeader) (k v : String) : HTTPHeader :=
  (k, [v]) :: h.filter (fun p => p.1 != k)

/-- Go's `url.Values`: a map from parameter names to their values. -/
abbrev Values := List (String × List String)

/-- The map assignment `val[k] = v`. -/
def Values.assign (val : Values) (k : String) (v : List String) : Values :=
  (k, v) :: val.filter (fun p => p.1 != k)

deriving instance DecidableEq for Except

/-- A `*url.URL`: the field `RawQuery`, which the client assigns, and the rest. -/
structure URL where
  /-- Scheme, host, path and fragment. -/
  loc : String
  RawQuery : String
deriving DecidableEq

/-- An outgoing `*http.Request`.  `Body` is `none` for a nil body; otherwise it
is what reading the body to its end gives: the bytes, or a read error. -/
structure Request where
  Method : String
  URL : String
  Header : HTTPHeader
  Body : Option (Except String String)
deriving DecidableEq

/-- An `*http.Response`.  `Body` is what reading the body to its end gives. -/
structure Response where
  StatusCode : Int
  Header : HTTPHeader
  Body : Except String String
deriving DecidableEq

/-- The type `ResponseWithElapsedTime`. -/
structure ResponseWithElapsedTime where
  Response : Response
  ElapsedTime : Int
deriving DecidableEq

/-- An error returned by `c.hc.Do`: a `*url.Error`, whose `Timeout()` method is
recorded, or an error value of any other dynamic type. -/
inductive TransportError where
  | urlError (timeout : Bool) (msg : String)
  | other (msg : String)
deriving DecidableEq

/-- The type assertion `err.(*url.Error)` followed by `e.Timeout()`. -/
def TransportError.isURLTimeout : TransportError → Bool
  | .urlError t _ => t
  | .other _ => false

/-- The method `Error()` of a transport error. -/
def TransportError.Error : TransportError → String
  | .urlError _ msg => msg
  | .other msg => msg

/-- The string held by an `ErrElapsedTimeOverRetire`: either the text of the
timed-out `url.Error`, or the "gave up browsing" text, which is determined by
the elapsed time it prints. -/
inductive RetireText where
  | timeout (msg : String)
  | gaveUp (elapsedTime : Int)
deriving DecidableEq

/-- The error values the client returns. -/
inductive Error where
  /-- The sentinel `ErrAlreadyRetired`. -/
  | ErrAlreadyRetired
  /-- A `*ErrElapsedTimeOverRetire`. -/
  | ErrElapsedTimeOverRetire (s : RetireText)
  /-- An error of `c.hc.Do`, returned as it is. -/
  | transport (e : TransportError)
  /-- An error returned by a library call (`url.Parse`, `io.Copy`, a JSON decoder). -/
  | lib (msg : String)
  /-- The value of `errors.Errorf`. -/
  | Errorf (msg : String)
  /-- The value of `errors.Wrap` or `errors.Wrapf` on a non-nil error. -/
  | Wrap (cause : Error) (msg : String)
  /-- The type `ErrorWithStatus`. -/
  | ErrorWithStatus (err : Error) (StatusCode : Int) (Body : String)
deriving DecidableEq

/-- What one call of `c.hc.Do` gives back. -/
inductive Outcome where
  | response (res : Response)
  | failure (err : TransportError)
deriving DecidableEq

/-- One physical attempt: the time `c.hc.Do` takes and what it returns. -/
structure Attempt where
  latency : Nat
  outcome : Outcome
deriving DecidableEq

/-- The clock and the record of the physical attempts of a session: `sent`
lists the instants at which `c.hc.Do` was called, the most recent first. -/
structure World where
  now : Nat
  sent : List Nat
deriving DecidableEq

/-- The number of physical attempts performed so far. -/
def World.attempts (w : World) : Nat := w.sent.length

/-! ## The conditional-request cache (package `urlcache`) -/

/-- Modelled from the spec: the cache entry `urlcache.URLCache`, whose package
is not among the sources.  The spec gives an entry its validators (entity tag,
last-modified stamp), its freshness metadata (cache-control directives and the
expiry stamp) and the stored body. -/
structure URLCache where
  ETag : Option String
  LastModified : Option String
  CacheControl : List String
  Expires : Option String
  Body : String
deriving DecidableEq

/-- Modelled from the spec: the store `urlcache.CacheStore`, whose package is
not among the sources: entries keyed by the fully-resolved request URL string,
one entry per URL. -/
structure CacheStore where
  items : List (String × URLCache)
deriving DecidableEq

/-- Modelled from the spec: `urlcache.NewCacheStore`, the store without entries. -/
def NewCacheStore : CacheStore := ⟨[]⟩

/-- Modelled from the spec: `CacheStore.Get`, the read-only `lookup(url)`. -/
def CacheStore.Get (s : CacheStore) (url : String) : Option URLCache :=
  s.items.lookup url

/-- Modelled from the spec: `CacheStore.Set`, which replaces the entry of one
URL wholesale (most-recent-wins) and deletes nothing else. -/
def CacheStore.Set (s : CacheStore) (url : String) (e : URLCache) : CacheStore :=
  ⟨(url, e) :: s.items.filter (fun p => p.1 != url)⟩

/-- Modelled from the spec: `URLCache.ApplyRequest`, the spec's
`apply_to_request`: it adds the conditional-revalidation headers derived from
the validators of the entry and alters neither method, target nor body. -/
def URLCache.ApplyRequest (e : URLCache) (req : Request) : Request :=
  let h1 := match e.ETag with
    | some t => req.Header.Set "If-None-Match" t
    | none => req.Header
  let h2 := match e.LastModified with
    | some t => h1.Set "If-Modified-Since" t
    | none => h1
  { req with Header := h2 }

/-- Modelled from the spec: whether a response carries an explicit freshness
directive (a `max-age` cache-control directive or an expiry stamp). -/
def hasFreshness (cc : List String) (expires : Option String) : Bool :=
  expires.isSome || cc.any (fun d => "max-age=".isPrefixOf d)

/-- Modelled from the spec: `urlcache.NewURLCache`, the cacheability decision
of the spec: an entry is built only if the response does not declare
`no-store` and carries a validator (entity tag or last-modified stamp) or an
explicit freshness directive; `none` is the nil entry. -/
def NewURLCache (res : Response) (body : String) : Option URLCache :=
  let cc := res.Header.Values "Cache-Control"
  let etag := res.Header.Get "ETag"
  let lm := res.Header.Get "Last-Modified"
  let exp := res.Header.Get "Expires"
  if cc.contains "no-store" then none
  else if etag.isSome || lm.isSome || hasFreshness cc exp then
    some { ETag := etag, LastModified := lm, CacheControl := cc, Expires := exp, Body := body }
  else none

/-! ## The client -/

/-- The type `User`. -/
structure User where
  ID : Int
  Name : String
deriving DecidableEq

/-- The type `Trade`. -/
structure Trade where
  ID : Int
  Amount : Int
  Price : Int
  CreatedAt : Int
deriving DecidableEq

/-- The type `Order`; the pointer fields are options and the time stamps integers. -/
structure Order where
  ID : Int
  Type_ : String
  UserID : Int
  Amount : Int
  Price : Int
  ClosedAt : Option Int
  TradeID : Int
  CreatedAt : Int
  User : Option User
  Trade : Option Trade
deriving DecidableEq

/-- The type `Client`.  The fields `base` and `hc` are the environment: see `Env`. -/
structure Client where
  userID : Int
  bankid : String
  pass : String
  name : String
  cache : CacheStore
  retired : Bool
  retireto : Int
deriving DecidableEq

/-- The environment of a client: the constant `RetryInterval` (declared outside
`client.go`), the transport behind `c.hc`, and the library calls. -/
structure Env where
  /-- The constant `RetryInterval`. -/
  RetryInterval : Nat
  /-- The call `c.hc.Do(req)` as the attempt number `n` of the session. -/
  Do : Nat → Request → Attempt
  /-- The call `c.base.Parse(path)`. -/
  Parse : String → Except String URL
  /-- The call `u.Query()`, as a function of `u.RawQuery`. -/
  Query : String → Values
  /-- The call `val.Encode()`. -/
  Encode : Values → String
  /-- The call `u.String()`. -/
  URLString : URL → String
  /-- The error, if any, of `http.NewRequest(method, url, body)`. -/
  NewRequestError : String → String → Option String
  /-- The call `json.NewDecoder(body).Decode(&orders)` on a list of orders. -/
  DecodeOrders : String → Except String (List Order)

/-- The call `http.NewRequest(method, url, body)`: its error, or a request
with the method, the URL and the body given and no header. -/
def NewRequest (env : Env) (method url : String) (body : Option (Except String String)) :
    Except String Request :=
  match env.NewRequestError method url with
  | some e => .error e
  | none => .ok { Method := method, URL := url, Header := [], Body := body }

/-- What a request primitive returns, with the session and the world after it. -/
abbrev Returned := Except Error ResponseWithElapsedTime × Client × World

/-- How one iteration of the `for` loop of `Client.doRequest` ends: by
`continue` or by falling through to the next iteration, in a new world, or by
`return`. -/
inductive Step where
  | next (w : World)
  | ret (r : Returned)

/-- The body of the `for` loop of `Client.doRequest`.  `req` is the request
sent and `start` the clock reading taken before the loop. -/
def doRequestStep (env : Env) (c : Client) (req : Request) (start : Nat) (w : World) : Step :=
  let a := env.Do w.attempts req
  let w1 : World := { now := w.now + a.latency, sent := w.now :: w.sent }
  let elapsedTime : Int := (w1.now : Int) - (start : Int)
  match a.outcome with
  | .failure err =>
    if err.isURLTimeout then
      .ret (.error (.ErrElapsedTimeOverRetire (.timeout err.Error)),
        { c with retired := true }, w1)
    else if elapsedTime < c.retireto then
      .next w1
    else
      .ret (.error (.transport err), c, w1)
  | .response res =>
    if c.retireto < elapsedTime then
      .ret (.error (.ErrElapsedTimeOverRetire (.gaveUp elapsedTime)),
        { c with retired := true }, w1)
    else if res.StatusCode < 500 then
      .ret (.ok { Response := res, ElapsedTime := elapsedTime }, c, w1)
    else
      .next { w1 with now := w1.now + env.RetryInterval }

/-- The `for` loop of `Client.doRequest`, one iteration per unit of fuel. -/
def doRequestLoop (env : Env) (c : Client) (req : Request) (start : Nat) :
    Nat → World → Option Returned
  | 0, _ => none
  | fuel + 1, w =>
    match doRequestStep env c req start w with
    | .ret r => some r
    | .next w1 => doRequestLoop env c req start fuel w1

/-- The request after `req.Header.Set("User-Agent", UserAgent)`. -/
def withUserAgent (req : Request) : Request :=
  { req with Header := req.Header.Set "User-Agent" UserAgent }

/-- The error, if any, of `ioutil.ReadAll(req.Body)` for a body that is not nil. -/
def readBodyError (req : Request) : Option String :=
  match req.Body with
  | some (.error e) => some e
  | some (.ok _) => none
  | none => none

/-- The method `Client.doRequest`.  Re-attaching the bytes read from the body
gives a body that reads the same bytes, so every attempt sends
`withUserAgent req`. -/
def doRequest (env : Env) (fuel : Nat) (c : Client) (w : World) (req : Request) :
    Option Returned :=
  if c.retired then
    some (.error .ErrAlreadyRetired, c, w)
  else
    match readBodyError req with
    | some e => some (.error (.Wrap (.lib e) "reqbody read faild"), c, w)
    | none => doRequestLoop env c (withUserAgent req) w.now fuel w

/-- The world at the head of iteration number `k` (counted from 0) of the
loop started in `w`, when the loop gets that far. -/
def loopHead (env : Env) (c : Client) (req : Request) (start : Nat) :
    Nat → World → Option World
  | 0, w => some w
  | k + 1, w =>
    match doRequestStep env c req start w with
    | .ret _ => none
    | .next w1 => loopHead env c req start k w1

/-- The world in which `doRequest`, called in world `w`, makes its physical
attempt number `k` (counted from 0), when it makes one: the session is not
retired, the request body can be read, and the `k` attempts before all ended
in a retry. -/
def doRequestHead (env : Env) (c : Client) (w : World) (req : Request) (k : Nat) :
    Option World :=
  if c.retired then none
  else
    match readBodyError req with
    | some _ => none
    | none => loopHead env c (withUserAgent req) w.now k w

/-- The clock reading after the attempt made in world `w`. -/
def measuredAt (env : Env) (req : Request) (w : World) : Nat :=
  w.now + (env.Do w.attempts (withUserAgent req)).latency

/-- The loop `for k, v := range u.Query() { val[k] = v }`. -/
def mergeQuery (q val : Values) : Values :=
  q.foldl (fun acc kv => Values.assign acc kv.1 kv.2) val

/-- The URL string `us` that `Client.get` requests, when the path parses. -/
def resolve (env : Env) (path : String) (val : Values) : Except String String :=
  match env.Parse path with
  | .error e => .error e
  | .ok u =>
    let val1 := mergeQuery (env.Query u.RawQuery) val
    .ok (env.URLString { u with RawQuery := env.Encode val1 })

/-- The method `Client.get`. -/
def get (env : Env) (fuel : Nat) (c : Client) (w : World) (path : String) (val : Values) :
    Option Returned :=
  match env.Parse path with
  | .error e => some (.error (.Wrap (.lib e) "url parse failed"), c, w)
  | .ok u =>
    let val1 := mergeQuery (env.Query u.RawQuery) val
    let us := env.URLString { u with RawQuery := env.Encode val1 }
    match NewRequest env "GET" us none with
    | .error e => some (.error (.Wrap (.lib e) "new request failed"), c, w)
    | .ok req =>
      let req1 := match c.cache.Get us with
        | some cache => cache.ApplyRequest req
        | none => req
      match doRequest env fuel c w req1 with
      | none => none
      | some (.error err, c1, w1) => some (.error err, c1, w1)
      | some (.ok res, c1, w1) =>
        if res.Response.StatusCode = 200 then
          match res.Response.Body with
          | .error e => some (.error (.lib e), c1, w1)
          | .ok body =>
            let c2 : Client := match NewURLCache res.Response body with
              | some cache => { c1 with cache := c1.cache.Set us cache }
              | none => c1
            some (.ok { res with Response := { res.Response with Body := .ok body } }, c2, w1)
        else
          some (.ok res, c1, w1)

/-- The method `Client.post`. -/
def post (env : Env) (fuel : Nat) (c : Client) (w : World) (path : String) (val : Values) :
    Option Returned :=
  match env.Parse path with
  | .error e => some (.error (.Wrap (.lib e) "url parse failed"), c, w)
  | .ok u =>
    match NewRequest env "POST" (env.URLString u) (some (.ok (env.Encode val))) with
    | .error e => some (.error (.Wrap (.lib e) "new request failed"), c, w)
    | .ok req =>
      doRequest env fuel c w
        { req with Header := req.Header.Set "Content-Type" "application/x-www-form-urlencoded" }

/-- The method `Client.del`. -/
def del (env : Env) (fuel : Nat) (c : Client) (w : World) (path : String) (val : Values) :
    Option Returned :=
  match env.Parse path with
  | .error e => some (.error (.Wrap (.lib e) "url parse failed"), c, w)
  | .ok u =>
    let val1 := mergeQuery (env.Query u.RawQuery) val
    let us := env.URLString { u with RawQuery := env.Encode val1 }
    match NewRequest env "DELETE" us none with
    | .error e => some (.error (.Wrap (.lib e) "new request failed"), c, w)
    | .ok req => doRequest env fuel c w req

/-! ## `GetOrders` -/

/-- The function `errors.Wrapf` of `github.com/pkg/errors`, which returns nil
when the error it is given is nil.  The formatted arguments of the message are
left out. -/
def Wrapf (err : Option Error) (msg : String) : Option Error :=
  match err with
  | none => none
  | some e => some (.Wrap e msg)

/-- The function `errorWithStatus`. -/
def errorWithStatus (err : Error) (code : Int) (body : String) : Error :=
  .ErrorWithStatus err code body

/-- The loop `for _, order := range orders` of `Client.GetOrders` followed by
`return orders, nil`.  `err` is the variable `err` of the function, which the
loop hands to `errors.Wrapf`; `orders` is the decoded list and the last
argument the part of it still to visit. -/
def checkOrders (c : Client) (err : Option Error) (orders : List Order) :
    List Order → Option (List Order) × Option Error
  | [] => (some orders, none)
  | order :: rest =>
    if order.UserID ≠ c.userID then
      (none, Wrapf err "GET /orders returned not my order")
    else
      match order.User with
      | none => (none, Wrapf err "GET /orders returned not filled user")
      | some user =>
        if user.Name ≠ c.name then
          (none, Wrapf err "GET /orders returned filled user.name is not my name")
        else if order.TradeID ≠ 0 ∧ order.Trade = none then
          (none, Wrapf err "GET /orders returned not filled trade")
        else
          checkOrders c err orders rest

/-- The method `Client.GetOrders`: the list returned (`none` for nil) and the
error returned (`none` for nil), with the session and world after the call. -/
def GetOrders (env : Env) (fuel : Nat) (c : Client) (w : World) :
    Option ((Option (List Order) × Option Error) × Client × World) :=
  match get env fuel c w "/orders" [] with
  | none => none
  | some (.error err, c1, w1) =>
    if err = .ErrAlreadyRetired then some ((none, some err), c1, w1)
    else some ((none, Wrapf (some err) "GET /orders request failed"), c1, w1)
  | some (.ok res, c1, w1) =>
    -- here the variable `err` assigned by `c.get` is nil
    let err : Option Error := none
    if res.Response.StatusCode ≠ 200 then
      match res.Response.Body with
      | .error e => some ((none, Wrapf (some (.lib e)) "GET /orders body read failed"), c1, w1)
      | .ok b =>
        some ((none, some (errorWithStatus (.Errorf "GET /orders failed.")
          res.Response.StatusCode b)), c1, w1)
    else
      match res.Response.Body with
      | .error e => some ((none, Wrapf (some (.lib e)) "GET /orders body decode failed"), c1, w1)
      | .ok b =>
        match env.DecodeOrders b with
        | .error e =>
          some ((none, Wrapf (some (.lib e)) "GET /orders body decode failed"), c1, w1)
        | .ok orders => some (checkOrders c1 err orders orders, c1, w1)

/-- Whether an order passes the four checks of `GetOrders` for a client. -/
def passesChecks (c : Client) (order : Order) : Bool :=
  order.UserID == c.userID &&
    (match order.User with
      | none => false
      | some user => user.Name == c.name) &&
    !(order.TradeID != 0 && order.Trade.isNone)

/-! ## Sequences of calls -/

/-- One call of a request primitive. -/
inductive Call where
  | get (path : String) (val : Values)
  | post (path : String) (val : Values)
  | del (path : String) (val : Values)
deriving DecidableEq

/-- Run one call. -/
def runCall (env : Env) (fuel : Nat) (c : Client) (w : World) : Call → Option Returned
  | .get path val => get env fuel c w path val
  | .post path val => post env fuel c w path val
  | .del path val => del env fuel c w path val

/-- Run calls one after the other on the same session, collecting what each returns. -/
def runCalls (env : Env) (fuel : Nat) :
    Client → World → List Call → Option (List (Except Error ResponseWithElapsedTime) × Client × World)
  | c, w, [] => some ([], c, w)
  | c, w, k :: ks =>
    match runCall env fuel c w k with
    | none => none
    | some (r, c1, w1) =>
      match runCalls env fuel c1 w1 ks with
      | none => none
      | some (rs, c2, w2) => some (r :: rs, c2, w2)

/-- The error with which `get` and `del` return before they reach `doRequest`,
when the path does not parse or `http.NewRequest` fails. -/
def buildErrorQuery (env : Env) (method path : String) (val : Values) : Option Error :=
  match env.Parse path with
  | .error e => some (.Wrap (.lib e) "url parse failed")
  | .ok u =>
    let val1 := mergeQuery (env.Query u.RawQuery) val
    let us := env.URLString { u with RawQuery := env.Encode val1 }
    match env.NewRequestError method us with
    | some e => some (.Wrap (.lib e) "new request failed")
    | none => none

/-- The error with which a primitive returns before it reaches `doRequest`,
when its path does not parse or `http.NewRequest` fails. -/
def buildError (env : Env) : Call → Option Error
  | .get path val => buildErrorQuery env "GET" path val
  | .del path val => buildErrorQuery env "DELETE" path val
  | .post path _ =>
    match env.Parse path with
    | .error e => some (.Wrap (.lib e) "url parse failed")
    | .ok u =>
      match env.NewRequestError "POST" (env.URLString u) with
      | some e => some (.Wrap (.lib e) "new request failed")
      | none => none

/-- What a call on a retired session returns: the error of building the
request if there is one, `ErrAlreadyRetired` otherwise. -/
def retiredAnswer (env : Env) (k : Call) : Except Error ResponseWithElapsedTime :=
  match buildError env k with
  | some e => .error e
  | none => .error .ErrAlreadyRetired

/-- The request that `Client.get` hands to `doRequest` for the URL string `us`:
the fresh GET request, with the cache entry of `us` applied when there is one. -/
def getRequest (c : Client) (us : String) : Request :=
  match c.cache.Get us with
  | some cache => cache.ApplyRequest { Method := "GET", URL := us, Header := [], Body := none }
  | none => { Method := "GET", URL := us, Header := [], Body := none }

/-- The part of `Client.get` that follows the return of `doRequest`. -/
def getFinish (us : String) : Returned → Returned
  | (.error err, c1, w1) => (.error err, c1, w1)
  | (.ok res, c1, w1) =>
    if res.Response.StatusCode = 200 then
      match res.Response.Body with
      | .error e => (.error (.lib e), c1, w1)
      | .ok body =>
        let c2 : Client := match NewURLCache res.Response body with
          | some cache => { c1 with cache := c1.cache.Set us cache }
          | none => c1
        (.ok { res with Response := { res.Response with Body := .ok body } }, c2, w1)
    else
      (.ok res, c1, w1)

/-- The instants of `n` attempts that start `period` apart from `t0` on, the
most recent first: `t0 + (n - 1) * period`, ..., `t0 + period`, `t0`. -/
def attemptTimes (t0 period : Nat) : Nat → List Nat
  | 0 => []
  | n + 1 => (t0 + n * period) :: attemptTimes t0 period n

/-- The session with its cache store replaced by `s`. -/
def setCache (s : CacheStore) (c : Client) : Client := { c with cache := s }

/-- What a call returned, up to the cache store of the session: the outcome
(response and recorded elapsed time, or error), the session with its cache
store emptied, and the world (clock and record of the attempts). -/
def sansCache (x : Returned) : Returned := (x.1, setCache NewCacheStore x.2.1, x.2.2)

/-! ## Concrete environments, used to run the definitions -/

/-- A fragment of `(*url.URL).Parse` on the base `http://localhost:5000`, for
references that are a rooted path without query or fragment, which resolve to
the base followed by the path, and for references that start with a colon,
which `url.Parse` refuses (`missing protocol scheme`). -/
def demoParse (path : String) : Except String URL :=
  if path.data.head? = some ':' then .error "missing protocol scheme"
  else .ok { loc := "http://localhost:5000" ++ path, RawQuery := "" }

/-- A fragment of `Values.Encode`: `k=v` pairs joined by `&`. -/
def demoEncode (val : Values) : String :=
  "&".intercalate (val.map fun kv => kv.1 ++ "=" ++ ",".intercalate kv.2)

/-- A fragment of `(*url.URL).String`. -/
def demoURLString (u : URL) : String :=
  if u.RawQuery = "" then u.loc else u.loc ++ "?" ++ u.RawQuery

/-- An environment with retry interval `interval`, transport `tr` and a JSON
decoder that reads `orders` from every body. -/
def demoEnv (interval : Nat) (tr : Nat → Request → Attempt) (orders : List Order) : Env :=
  { RetryInterval := interval
    Do := tr
    Parse := demoParse
    Query := fun _ => []
    Encode := demoEncode
    URLString := demoURLString
    NewRequestError := fun _ _ => none
    DecodeOrders := fun _ => .ok orders }

/-- A transport that answers every attempt with the same attempt. -/
def always (a : Attempt) : Nat → Request → Attempt := fun _ _ => a

/-- A transport that answers attempt number `n` with the entry `n` of a script,
and with `a` once the script is over. -/
def scripted (script : List Attempt) (a : Attempt) : Nat → Request → Attempt :=
  fun n _ => script.getD n a

/-- A response with a status code, headers and an empty body. -/
def respond (code : Int) (h : HTTPHeader) : Outcome :=
  .response { StatusCode := code, Header := h, Body := .ok "" }

/-- A session that is not retired, with retirement threshold `threshold`. -/
def demoClient (threshold : Int) : Client :=
  { userID := 1, bankid := "bank1", pass := "secret", name := "alice",
    cache := NewCacheStore, retired := false, retireto := threshold }

/-- The world before any attempt. -/
def world0 : World := { now := 0, sent := [] }

/-- A bodyless request. -/
def demoRequest : Request :=
  { Method := "GET", URL := "http://localhost:5000/info", Header := [], Body := none }

/-- A cache store warmed with an entry for `http://localhost:5000/info`. -/
def warmStore : CacheStore :=
  NewCacheStore.Set "http://localhost:5000/info"
    { ETag := some "v1", LastModified := none, CacheControl := [], Expires := none,
      Body := "old" }

/-- An environment whose transport answers the first attempt with a 200 of
entity tag `v1`, the second with a 200 of entity tag `v2`, and any later one
with a 304. -/
def etagEnv : Env :=
  demoEnv 500
    (scripted [⟨100, respond 200 [("ETag", ["v1"])]⟩, ⟨100, respond 200 [("ETag", ["v2"])]⟩]
      ⟨100, respond 304 []⟩) []

/-- The cache entry built from a response with empty body that carries only an
entity tag. -/
def etagEntry (tag : String) : URLCache :=
  { ETag := some tag, LastModified := none, CacheControl := [], Expires := none, Body := "" }

/-- The session `demoClient 3000` whose cache store holds, for the URL
`http://localhost:5000/`, the entry of entity tag `tag`. -/
def sessionTagged (tag : String) : Client :=
  { demoClient 3000 with cache := NewCacheStore.Set "http://localhost:5000/" (etagEntry tag) }

/-- The JSON text of a list of one order, of user 2, named `bob`. -/
def foreignOrdersJSON : String :=
  "[\x7b\"id\":7,\"type\":\"buy\",\"user_id\":2,\"amount\":1,\"price\":100,\"closed_at\":null,\"created_at\":\"1970-01-01T00:00:00Z\",\"user\":\x7b\"id\":2,\"name\":\"bob\"\x7d\x7d]"

/-- The JSON text of a list of one order, of user 1, named `alice`. -/
def ownOrdersJSON : String :=
  "[\x7b\"id\":8,\"type\":\"sell\",\"user_id\":1,\"amount\":1,\"price\":100,\"closed_at\":null,\"created_at\":\"1970-01-01T00:00:00Z\",\"user\":\x7b\"id\":1,\"name\":\"alice\"\x7d\x7d]"

/-- An order of user 2, named `bob`. -/
def foreignOrder : Order :=
  { ID := 7, Type_ := "buy", UserID := 2, Amount := 1, Price := 100, ClosedAt := none,
    TradeID := 0, CreatedAt := 0, User := some { ID := 2, Name := "bob" }, Trade := none }

/-- An order of user 1, named `alice`. -/
def ownOrder : Order :=
  { ID := 8, Type_ := "sell", UserID := 1, Amount := 1, Price := 100, ClosedAt := none,
    TradeID := 0, CreatedAt := 0, User := some { ID := 1, Name := "alice" }, Trade := none }

/-- A fragment of the JSON decoder: it reads the two texts above. -/
def demoDecodeOrders (body : String) : Except String (List Order) :=
  if body = foreignOrdersJSON then .ok [foreignOrder]
  else if body = ownOrdersJSON then .ok [ownOrder]
  else .error "json: cannot unmarshal"

/-- An environment whose transport answers every attempt, after 100, with
status 200 and the body `body`. -/
def ordersEnv (body : String) : Env :=
  { demoEnv 500 (always ⟨100, .response { StatusCode := 200, Header := [], Body := .ok body }⟩) []
    with DecodeOrders := demoDecodeOrders }

/-! ## Theorems -/

theorem loopHead_add (env : Env) (c : Client) (req : Request) (start : Nat) :
    ∀ (k : Nat) (w wk : World), loopHead env c req start k w = some wk →
      ∀ m, doRequestLoop env c req start (k + m) w = doRequestLoop env c req start m wk := by
  intro k
  induction k with
  | zero =>
    intro w wk h m
    simp [loopHead] at h
    simp [h]
  | succ k ih =>
    intro w wk h m
    rw [loopHead] at h
    have e : k + 1 + m = (k + m) + 1 := by omega
    rw [e, doRequestLoop]
    cases hs : doRequestStep env c req start w with
    | ret r => simp [hs] at h
    | next w1 =>
      simp only [hs] at h ⊢
      exact ih w1 wk h m

theorem loopHead_attempts (env : Env) (c : Client) (req : Request) (start : Nat) :
    ∀ (k : Nat) (w wk : World), loopHead env c req start k w = some wk →
      wk.attempts = w.attempts + k := by
  intro k
  induction k with
  | zero =>
    intro w wk h
    simp [loopHead] at h
    simp [h]
  | succ k ih =>
    intro w wk h
    rw [loopHead] at h
    cases hs : doRequestStep env c req start w with
    | ret r => simp [hs] at h
    | next w1 =>
      simp only [hs] at h
      have h1 := ih w1 wk h
      have h2 : w1.attempts = w.attempts + 1 := by
        unfold doRequestStep at hs
        simp only at hs
        split at hs
        · split at hs
          · cases hs
          · split at hs
            · cases hs; simp [World.attempts]
            · cases hs
        · split at hs
          · cases hs
          · split at hs
            · cases hs
            · cases hs; simp [World.attempts]
      omega

/-- From a head of the loop, `doRequest` behaves as the loop started there. -/
theorem doRequest_of_head (env : Env) (c : Client) (w wk : World) (req : Request) (k : Nat)
    (h : doRequestHead env c w req k = some wk) :
    c.retired = false ∧ wk.attempts = w.attempts + k ∧
      ∀ m, doRequest env (k + m) c w req
        = doRequestLoop env c (withUserAgent req) w.now m wk := by
  unfold doRequestHead at h
  cases hr : c.retired with
  | true => simp [hr] at h
  | false =>
    cases hb : readBodyError req with
    | some e => simp [hr, hb] at h
    | none =>
      simp only [hr, hb] at h
      refine ⟨rfl, loopHead_attempts env c _ _ k w wk (by simpa using h), ?_⟩
      intro m
      unfold doRequest
      simp only [hr, hb]
      simpa using loopHead_add env c _ _ k w wk (by simpa using h) m

/-! ### One iteration of the loop -/

theorem step_failure (env : Env) (c : Client) (req : Request) (start : Nat) (w : World)
    (e : TransportError) (h : (env.Do w.attempts req).outcome = .failure e) :
    doRequestStep env c req start w =
      if e.isURLTimeout then
        .ret (.error (.ErrElapsedTimeOverRetire (.timeout e.Error)), { c with retired := true },
          { now := w.now + (env.Do w.attempts req).latency, sent := w.now :: w.sent })
      else if ((w.now + (env.Do w.attempts req).latency : Nat) : Int) - (start : Int) < c.retireto then
        .next { now := w.now + (env.Do w.attempts req).latency, sent := w.now :: w.sent }
      else
        .ret (.error (.transport e), c,
          { now := w.now + (env.Do w.attempts req).latency, sent := w.now :: w.sent }) := by
  simp only [doRequestStep, h]

theorem step_response (env : Env) (c : Client) (req : Request) (start : Nat) (w : World)
    (res : Response) (h : (env.Do w.attempts req).outcome = .response res) :
    doRequestStep env c req start w =
      if c.retireto < ((w.now + (env.Do w.attempts req).latency : Nat) : Int) - (start : Int) then
        .ret (.error (.ErrElapsedTimeOverRetire
            (.gaveUp (((w.now + (env.Do w.attempts req).latency : Nat) : Int) - (start : Int)))),
          { c with retired := true },
          { now := w.now + (env.Do w.attempts req).latency, sent := w.now :: w.sent })
      else if res.StatusCode < 500 then
        .ret (.ok { Response := res,
                    ElapsedTime := ((w.now + (env.Do w.attempts req).latency : Nat) : Int) - (start : Int) },
          c, { now := w.now + (env.Do w.attempts req).latency, sent := w.now :: w.sent })
      else
        .next { now := w.now + (env.Do w.attempts req).latency + env.RetryInterval,
                sent := w.now :: w.sent } := by
  simp only [doRequestStep, h]

theorem loop_ret (env : Env) (c : Client) (req : Request) (start : Nat) (w : World)
    (r : Returned) (h : doRequestStep env c req start w = .ret r) (j : Nat) :
    doRequestLoop env c req start (j + 1) w = some r := by
  simp [doRequestLoop, h]

theorem loopHead_succ (env : Env) (c : Client) (req : Request) (start : Nat) :
    ∀ (k : Nat) (w wk w1 : World), loopHead env c req start k w = some wk →
      doRequestStep env c req start wk = .next w1 →
      loopHead env c req start (k + 1) w = some w1 := by
  intro k
  induction k with
  | zero =>
    intro w wk w1 h hs
    simp [loopHead] at h
    subst h
    simp [loopHead, hs]
  | succ k ih =>
    intro w wk w1 h hs
    rw [loopHead] at h ⊢
    cases hw : doRequestStep env c req start w with
    | ret r => simp [hw] at h
    | next w2 =>
      simp only [hw] at h ⊢
      exact ih w2 wk w1 h hs

/-- C2. A transport timeout is never retried.  If `doRequest` makes its
attempt number `k` (so the session is not retired) and `c.hc.Do` fails there
with a `url.Error` whose `Timeout()` is true, then with any fuel beyond `k` it
returns `ErrElapsedTimeOverRetire` carrying the text of that error, with
`retired` set, having made exactly `k + 1` attempts: the one that timed out is
the last.  For `k = 0`, the first attempt, exactly one attempt is made. -/
theorem timeout_is_never_retried (env : Env) (c : Client) (w wk : World) (req : Request)
    (k : Nat) (e : TransportError)
    (hhead : doRequestHead env c w req k = some wk)
    (hfail : (env.Do wk.attempts (withUserAgent req)).outcome = .failure e)
    (htimeout : e.isURLTimeout = true) :
    c.retired = false ∧
    (∀ j, doRequest env (k + (j + 1)) c w req
      = some (.error (.ErrElapsedTimeOverRetire (.timeout e.Error)), { c with retired := true },
          { now := measuredAt env req wk, sent := wk.now :: wk.sent })) ∧
    World.attempts { now := measuredAt env req wk, sent := wk.now :: wk.sent }
      = w.attempts + (k + 1) := by
  obtain ⟨hc, ha, hrun⟩ := doRequest_of_head env c w wk req k hhead
  refine ⟨hc, ?_, ?_⟩
  · intro j
    rw [hrun (j + 1)]
    apply loop_ret
    rw [step_failure env c _ _ wk e hfail]
    simp [htimeout, measuredAt]
  · simp only [World.attempts, List.length_cons] at ha ⊢
    omega

/-- C2 at concrete inputs, threshold 3000: a first attempt that times out
after 1000 is the only attempt; and after a 503 received at 100 and a sleep of
500, a second attempt that times out is the last one.  Both retire the
session. -/
theorem timeout_is_never_retried_witness :
    doRequest (demoEnv 500 (always ⟨1000, .failure (.urlError true "net/http: timeout")⟩) [])
        1 (demoClient 3000) world0 demoRequest
      = some (.error (.ErrElapsedTimeOverRetire (.timeout "net/http: timeout")),
          { demoClient 3000 with retired := true }, { now := 1000, sent := [0] })
    ∧ doRequest
        (demoEnv 500
          (scripted [⟨100, respond 503 []⟩] ⟨1000, .failure (.urlError true "net/http: timeout")⟩)
          [])
        2 (demoClient 3000) world0 demoRequest
      = some (.error (.ErrElapsedTimeOverRetire (.timeout "net/http: timeout")),
          { demoClient 3000 with retired := true }, { now := 1600, sent := [600, 0] }) :=
  ⟨(timeout_is_never_retried
      (demoEnv 500 (always ⟨1000, .failure (.urlError true "net/http: timeout")⟩) [])
      (demoClient 3000) world0 world0 demoRequest 0 (.urlError true "net/http: timeout")
      (by decide) (by decide) (by decide)).2.1 0,
   (timeout_is_never_retried
      (demoEnv 500
        (scripted [⟨100, respond 503 []⟩] ⟨1000, .failure (.urlError true "net/http: timeout")⟩)
        [])
      (demoClient 3000) world0 { now := 600, sent := [0] } demoRequest 1
      (.urlError true "net/http: timeout")
      (by decide) (by decide) (by decide)).2.1 0⟩

/-- C3. Success under the threshold is returned and does not retire.  If
`doRequest` makes its attempt number `k` (so the session is not retired), the
attempt yields a response with status below 500, and the time elapsed since
the start of the call, measured when the response arrives, is at most the
threshold (equality included), then with any fuel beyond `k` it returns that
response paired with exactly that elapsed time, the session unchanged and not
retired, having made exactly `k + 1` attempts. -/
theorem success_under_threshold (env : Env) (c : Client) (w wk : World) (req : Request)
    (k : Nat) (res : Response)
    (hhead : doRequestHead env c w req k = some wk)
    (hres : (env.Do wk.attempts (withUserAgent req)).outcome = .response res)
    (hstatus : res.StatusCode < 500)
    (hwithin : (measuredAt env req wk : Int) - (w.now : Int) ≤ c.retireto) :
    c.retired = false ∧
    (∀ j, doRequest env (k + (j + 1)) c w req
      = some (.ok { Response := res,
                    ElapsedTime := (measuredAt env req wk : Int) - (w.now : Int) }, c,
          { now := measuredAt env req wk, sent := wk.now :: wk.sent })) ∧
    World.attempts { now := measuredAt env req wk, sent := wk.now :: wk.sent }
      = w.attempts + (k + 1) := by
  obtain ⟨hc, ha, hrun⟩ := doRequest_of_head env c w wk req k hhead
  refine ⟨hc, ?_, ?_⟩
  · intro j
    rw [hrun (j + 1)]
    apply loop_ret
    rw [step_response env c _ _ wk res hres]
    simp only [measuredAt] at hwithin ⊢
    rw [if_neg (not_lt.mpr hwithin), if_pos hstatus]
  · simp only [World.attempts, List.length_cons] at ha ⊢
    omega

/-- C3 at concrete inputs, threshold 3000: a 404 that arrives exactly at the
threshold is returned with elapsed time 3000; and a 200 that arrives at 700,
after a 503 received at 100 and a sleep of 500, is returned with elapsed time
700.  Neither retires the session. -/
theorem success_under_threshold_witness :
    doRequest (demoEnv 500 (always ⟨3000, respond 404 []⟩) []) 1 (demoClient 3000) world0
        demoRequest
      = some (.ok { Response := { StatusCode := 404, Header := [], Body := .ok "" },
                    ElapsedTime := 3000 },
          demoClient 3000, { now := 3000, sent := [0] })
    ∧ (demoClient 3000).retired = false
    ∧ doRequest (demoEnv 500 (scripted [⟨100, respond 503 []⟩] ⟨100, respond 200 []⟩) []) 2
        (demoClient 3000) world0 demoRequest
      = some (.ok { Response := { StatusCode := 200, Header := [], Body := .ok "" },
                    ElapsedTime := 700 },
          demoClient 3000, { now := 700, sent := [600, 0] }) :=
  have h := success_under_threshold (demoEnv 500 (always ⟨3000, respond 404 []⟩) [])
    (demoClient 3000) world0 world0 demoRequest 0
    { StatusCode := 404, Header := [], Body := .ok "" }
    (by decide) (by decide) (by decide) (by decide)
  ⟨h.2.1 0, h.1,
   (success_under_threshold
      (demoEnv 500 (scripted [⟨100, respond 503 []⟩] ⟨100, respond 200 []⟩) [])
      (demoClient 3000) world0 { now := 600, sent := [0] } demoRequest 1
      { StatusCode := 200, Header := [], Body := .ok "" }
      (by decide) (by decide) (by decide) (by decide)).2.1 0⟩

/-- C4. Retirement on a received response depends only on latency.  If
`doRequest` makes its attempt number `k` (so the session is not retired), the
attempt yields a response, whatever its status code, and the time elapsed
since the start of the call, measured when the response arrives, is greater
than the threshold, then with any fuel beyond `k` it returns
`ErrElapsedTimeOverRetire` (for that elapsed time) instead of the response,
with `retired` set, having made exactly `k + 1` attempts. -/
theorem slow_response_retires (env : Env) (c : Client) (w wk : World) (req : Request)
    (k : Nat) (res : Response)
    (hhead : doRequestHead env c w req k = some wk)
    (hres : (env.Do wk.attempts (withUserAgent req)).outcome = .response res)
    (hslow : c.retireto < (measuredAt env req wk : Int) - (w.now : Int)) :
    c.retired = false ∧
    (∀ j, doRequest env (k + (j + 1)) c w req
      = some (.error (.ErrElapsedTimeOverRetire
                (.gaveUp ((measuredAt env req wk : Int) - (w.now : Int)))),
          { c with retired := true },
          { now := measuredAt env req wk, sent := wk.now :: wk.sent })) ∧
    World.attempts { now := measuredAt env req wk, sent := wk.now :: wk.sent }
      = w.attempts + (k + 1) := by
  obtain ⟨hc, ha, hrun⟩ := doRequest_of_head env c w wk req k hhead
  refine ⟨hc, ?_, ?_⟩
  · intro j
    rw [hrun (j + 1)]
    apply loop_ret
    rw [step_response env c _ _ wk res hres]
    simp only [measuredAt] at hslow ⊢
    rw [if_pos hslow]
  · simp only [World.attempts, List.length_cons] at ha ⊢
    omega

/-- C4 at a concrete input: a 200 that arrives at 3001 with threshold 3000
retires the session. -/
theorem slow_response_retires_witness :
    doRequest (demoEnv 500 (always ⟨3001, respond 200 []⟩) []) 1 (demoClient 3000) world0
        demoRequest
      = some (.error (.ErrElapsedTimeOverRetire (.gaveUp 3001)),
          { demoClient 3000 with retired := true }, { now := 3001, sent := [0] }) :=
  (slow_response_retires (demoEnv 500 (always ⟨3001, respond 200 []⟩) [])
    (demoClient 3000) world0 world0 demoRequest 0
    { StatusCode := 200, Header := [], Body := .ok "" }
    (by decide) (by decide) (by decide)).2.1 0

theorem doRequestHead_succ (env : Env) (c : Client) (w wk w1 : World) (req : Request) (k : Nat)
    (h : doRequestHead env c w req k = some wk)
    (hs : doRequestStep env c (withUserAgent req) w.now wk = .next w1) :
    doRequestHead env c w req (k + 1) = some w1 := by
  unfold doRequestHead at h ⊢
  cases hr : c.retired with
  | true => simp [hr] at h
  | false =>
    cases hb : readBodyError req with
    | some e => simp [hr, hb] at h
    | none =>
      simp only [hr, hb] at h ⊢
      simpa using loopHead_succ env c _ _ k w wk w1 (by simpa using h) hs

/-- C6. Transport errors that are not timeouts consume the elapsed-time
budget.  If `doRequest` makes its attempt number `k` (so the session is not
retired) and `c.hc.Do` fails there with an error that is not a timed-out
`url.Error`, then, `e` being the time elapsed since the start of the call when
the error is seen: if `e` is below the threshold the call makes attempt number
`k + 1` at that very instant (no sleep), whatever `k` is; if `e` is at least
the threshold it returns, with any fuel beyond `k`, exactly that transport
error, and the session is unchanged: `retired` stays false. -/
theorem transport_error_consumes_budget (env : Env) (c : Client) (w wk : World) (req : Request)
    (k : Nat) (e : TransportError)
    (hhead : doRequestHead env c w req k = some wk)
    (hfail : (env.Do wk.attempts (withUserAgent req)).outcome = .failure e)
    (hnot : e.isURLTimeout = false) :
    c.retired = false ∧
    ((measuredAt env req wk : Int) - (w.now : Int) < c.retireto →
      doRequestHead env c w req (k + 1)
        = some { now := measuredAt env req wk, sent := wk.now :: wk.sent }) ∧
    (c.retireto ≤ (measuredAt env req wk : Int) - (w.now : Int) →
      ∀ j, doRequest env (k + (j + 1)) c w req
        = some (.error (.transport e), c,
            { now := measuredAt env req wk, sent := wk.now :: wk.sent })) := by
  obtain ⟨hc, _, hrun⟩ := doRequest_of_head env c w wk req k hhead
  refine ⟨hc, ?_, ?_⟩
  · intro hlt
    apply doRequestHead_succ env c w wk _ req k hhead
    rw [step_failure env c _ _ wk e hfail]
    simp only [measuredAt] at hlt ⊢
    rw [hnot, if_neg Bool.false_ne_true, if_pos hlt]
  · intro hge j
    rw [hrun (j + 1)]
    apply loop_ret
    rw [step_failure env c _ _ wk e hfail]
    simp only [measuredAt] at hge ⊢
    rw [hnot, if_neg Bool.false_ne_true, if_neg (not_lt.mpr hge)]

/-- C6 at concrete inputs, threshold 3000: a refused connection seen at 1000
is followed by a second attempt sent at 1000; a refused connection seen at
3000 is returned as it is and the session is not retired. -/
theorem transport_error_consumes_budget_witness :
    doRequestHead (demoEnv 500 (always ⟨1000, .failure (.urlError false "connection refused")⟩) [])
        (demoClient 3000) world0 demoRequest 1
      = some { now := 1000, sent := [0] }
    ∧ doRequest (demoEnv 500 (always ⟨3000, .failure (.other "connection reset")⟩) [])
        1 (demoClient 3000) world0 demoRequest
      = some (.error (.transport (.other "connection reset")), demoClient 3000,
          { now := 3000, sent := [0] }) :=
  ⟨(transport_error_consumes_budget
      (demoEnv 500 (always ⟨1000, .failure (.urlError false "connection refused")⟩) [])
      (demoClient 3000) world0 world0 demoRequest 0 (.urlError false "connection refused")
      (by decide) (by decide) (by decide)).2.1 (by decide),
   (transport_error_consumes_budget
      (demoEnv 500 (always ⟨3000, .failure (.other "connection reset")⟩) [])
      (demoClient 3000) world0 world0 demoRequest 0 (.other "connection reset")
      (by decide) (by decide) (by decide)).2.2 (by decide) 0⟩

/-! ### What the loop may return -/

theorem step_ret_shape (env : Env) (c : Client) (req : Request) (start : Nat) (w : World)
    (r : Except Error ResponseWithElapsedTime) (c1 : Client) (w1 : World)
    (h : doRequestStep env c req start w = .ret (r, c1, w1)) :
    ((∃ s, r = .error (.ErrElapsedTimeOverRetire s)) ∧ c1 = { c with retired := true }) ∨
    (((∃ e, r = .error (.transport e)) ∨ (∃ res, r = .ok res)) ∧ c1 = c) := by
  unfold doRequestStep at h
  simp only at h
  split at h
  · split at h
    · cases h; exact Or.inl ⟨⟨_, rfl⟩, rfl⟩
    · split at h
      · cases h
      · cases h; exact Or.inr ⟨Or.inl ⟨_, rfl⟩, rfl⟩
  · split at h
    · cases h; exact Or.inl ⟨⟨_, rfl⟩, rfl⟩
    · split at h
      · cases h; exact Or.inr ⟨Or.inr ⟨_, rfl⟩, rfl⟩
      · cases h

theorem loop_ret_shape (env : Env) (c : Client) (req : Request) (start : Nat) :
    ∀ (fuel : Nat) (w : World) (r : Except Error ResponseWithElapsedTime) (c1 : Client)
      (w1 : World), doRequestLoop env c req start fuel w = some (r, c1, w1) →
    ((∃ s, r = .error (.ErrElapsedTimeOverRetire s)) ∧ c1 = { c with retired := true }) ∨
    (((∃ e, r = .error (.transport e)) ∨ (∃ res, r = .ok res)) ∧ c1 = c) := by
  intro fuel
  induction fuel with
  | zero => intro w r c1 w1 h; simp [doRequestLoop] at h
  | succ n ih =>
    intro w r c1 w1 h
    rw [doRequestLoop] at h
    cases hs : doRequestStep env c req start w with
    | ret x =>
      simp only [hs, Option.some.injEq] at h
      subst h
      exact step_ret_shape env c req start w r c1 w1 hs
    | next w2 =>
      simp only [hs] at h
      exact ih w2 r c1 w1 h

/-- What `doRequest` may return, and the session it leaves: the cache is never
touched, and the session is retired exactly on `ErrElapsedTimeOverRetire`. -/
theorem doRequest_shape (env : Env) (fuel : Nat) (c : Client) (w : World) (req : Request)
    (r : Except Error ResponseWithElapsedTime) (c1 : Client) (w1 : World)
    (h : doRequest env fuel c w req = some (r, c1, w1)) :
    c1.cache = c.cache ∧
    ((∃ s, r = .error (.ErrElapsedTimeOverRetire s)) → c1.retired = true) ∧
    ((∀ s, r ≠ .error (.ErrElapsedTimeOverRetire s)) → c1 = c) := by
  unfold doRequest at h
  cases hr : c.retired with
  | true =>
    simp only [hr, if_true, Option.some.injEq, Prod.mk.injEq] at h
    obtain ⟨rfl, rfl, rfl⟩ := h
    exact ⟨rfl, fun hs => (by obtain ⟨s, hs⟩ := hs; cases hs), fun _ => rfl⟩
  | false =>
    cases hb : readBodyError req with
    | some e =>
      simp only [hr, hb, Option.some.injEq, Prod.mk.injEq] at h
      obtain ⟨rfl, rfl, rfl⟩ := h
      exact ⟨rfl, fun hs => (by obtain ⟨s, hs⟩ := hs; cases hs), fun _ => rfl⟩
    | none =>
      simp only [hr, hb] at h
      have h2 : doRequestLoop env c (withUserAgent req) w.now fuel w = some (r, c1, w1) := by
        simpa using h
      rcases loop_ret_shape env c _ _ fuel w r c1 w1 h2 with ⟨⟨s, hs⟩, hc⟩ | ⟨hk, hc⟩
      · subst hc
        exact ⟨rfl, fun _ => rfl, fun hn => absurd hs (hn s)⟩
      · subst hc
        refine ⟨rfl, ?_, fun _ => rfl⟩
        rintro ⟨s, hs⟩
        rcases hk with ⟨e, he⟩ | ⟨res, he⟩ <;> rw [he] at hs <;> cases hs

theorem doRequest_retired (env : Env) (fuel : Nat) (c : Client) (w : World) (req : Request)
    (h : c.retired = true) :
    doRequest env fuel c w req = some (.error .ErrAlreadyRetired, c, w) := by
  simp [doRequest, h]

/-! ### The three primitives in terms of `doRequest` -/

theorem get_of_buildError (env : Env) (fuel : Nat) (c : Client) (w : World) (path : String)
    (val : Values) (e : Error) (h : buildErrorQuery env "GET" path val = some e) :
    get env fuel c w path val = some (.error e, c, w) := by
  unfold buildErrorQuery at h
  unfold get NewRequest
  cases hp : env.Parse path with
  | error x =>
    simp only [hp, Option.some.injEq] at h
    simp [h]
  | ok u =>
    simp only [hp] at h ⊢
    cases hn : env.NewRequestError "GET"
        (env.URLString { u with RawQuery := env.Encode (mergeQuery (env.Query u.RawQuery) val) }) with
    | none => simp [hn] at h
    | some x =>
      simp only [hn, Option.some.injEq] at h
      simp [hn, h]

theorem get_of_built (env : Env) (path : String) (val : Values)
    (h : buildErrorQuery env "GET" path val = none) :
    ∃ us, resolve env path val = .ok us ∧ ∀ (fuel : Nat) (c : Client) (w : World),
      get env fuel c w path val
        = (doRequest env fuel c w (getRequest c us)).map (getFinish us) := by
  unfold buildErrorQuery at h
  unfold resolve
  cases hp : env.Parse path with
  | error x => simp [hp] at h
  | ok u =>
    simp only [hp] at h
    refine ⟨_, rfl, ?_⟩
    intro fuel c w
    cases hn : env.NewRequestError "GET"
        (env.URLString { u with RawQuery := env.Encode (mergeQuery (env.Query u.RawQuery) val) }) with
    | some x => simp [hn] at h
    | none =>
      unfold get NewRequest getRequest
      simp only [hp, hn]
      cases hd : doRequest env fuel c w
          (match c.cache.Get (env.URLString
              { u with RawQuery := env.Encode (mergeQuery (env.Query u.RawQuery) val) }) with
            | some cache => cache.ApplyRequest
                { Method := "GET",
                  URL := env.URLString
                    { u with RawQuery := env.Encode (mergeQuery (env.Query u.RawQuery) val) },
                  Header := [], Body := none }
            | none =>
                { Method := "GET",
                  URL := env.URLString
                    { u with RawQuery := env.Encode (mergeQuery (env.Query u.RawQuery) val) },
                  Header := [], Body := none }) with
      | none => simp [hd]
      | some x =>
        obtain ⟨r, c1, w1⟩ := x
        cases r with
        | error err => simp [hd, getFinish]
        | ok res =>
          simp only [hd, Option.map_some', getFinish]
          split
          · cases res.Response.Body <;> rfl
          · rfl

theorem del_of_buildError (env : Env) (fuel : Nat) (c : Client) (w : World) (path : String)
    (val : Values) (e : Error) (h : buildErrorQuery env "DELETE" path val = some e) :
    del env fuel c w path val = some (.error e, c, w) := by
  unfold buildErrorQuery at h
  unfold del NewRequest
  cases hp : env.Parse path with
  | error x =>
    simp only [hp, Option.some.injEq] at h
    simp [h]
  | ok u =>
    simp only [hp] at h ⊢
    cases hn : env.NewRequestError "DELETE"
        (env.URLString { u with RawQuery := env.Encode (mergeQuery (env.Query u.RawQuery) val) }) with
    | none => simp [hn] at h
    | some x =>
      simp only [hn, Option.some.injEq] at h
      simp [hn, h]

theorem del_of_built (env : Env) (path : String) (val : Values)
    (h : buildErrorQuery env "DELETE" path val = none) :
    ∃ req, ∀ (fuel : Nat) (c : Client) (w : World),
      del env fuel c w path val = doRequest env fuel c w req := by
  unfold buildErrorQuery at h
  cases hp : env.Parse path with
  | error x => simp [hp] at h
  | ok u =>
    simp only [hp] at h
    cases hn : env.NewRequestError "DELETE"
        (env.URLString { u with RawQuery := env.Encode (mergeQuery (env.Query u.RawQuery) val) }) with
    | some x => simp [hn] at h
    | none =>
      refine ⟨{ Method := "DELETE",
                URL := env.URLString
                  { u with RawQuery := env.Encode (mergeQuery (env.Query u.RawQuery) val) },
                Header := [], Body := none }, ?_⟩
      intro fuel c w
      unfold del NewRequest
      simp only [hp, hn]

theorem post_of_buildError (env : Env) (fuel : Nat) (c : Client) (w : World) (path : String)
    (val : Values) (e : Error) (h : buildError env (.post path val) = some e) :
    post env fuel c w path val = some (.error e, c, w) := by
  unfold buildError at h
  unfold post NewRequest
  cases hp : env.Parse path with
  | error x =>
    simp only [hp, Option.some.injEq] at h
    simp [h]
  | ok u =>
    simp only [hp] at h ⊢
    cases hn : env.NewRequestError "POST" (env.URLString u) with
    | none => simp [hn] at h
    | some x =>
      simp only [hn, Option.some.injEq] at h
      simp [h]

theorem post_of_built (env : Env) (path : String) (val : Values)
    (h : buildError env (.post path val) = none) :
    ∃ req, ∀ (fuel : Nat) (c : Client) (w : World),
      post env fuel c w path val = doRequest env fuel c w req := by
  unfold buildError at h
  cases hp : env.Parse path with
  | error x => simp [hp] at h
  | ok u =>
    simp only [hp] at h
    cases hn : env.NewRequestError "POST" (env.URLString u) with
    | some x => simp [hn] at h
    | none =>
      refine ⟨{ Method := "POST", URL := env.URLString u,
                Header := HTTPHeader.Set [] "Content-Type" "application/x-www-form-urlencoded",
                Body := some (.ok (env.Encode val)) }, ?_⟩
      intro fuel c w
      unfold post NewRequest
      simp only [hp, hn]

theorem buildErrorQuery_wrap (env : Env) (method path : String) (val : Values) (e : Error)
    (h : buildErrorQuery env method path val = some e) : ∃ e1 msg, e = .Wrap e1 msg := by
  unfold buildErrorQuery at h
  cases hp : env.Parse path with
  | error x =>
    simp only [hp, Option.some.injEq] at h
    exact ⟨_, _, h.symm⟩
  | ok u =>
    simp only [hp] at h
    cases hn : env.NewRequestError method
        (env.URLString { u with RawQuery := env.Encode (mergeQuery (env.Query u.RawQuery) val) }) with
    | none => simp [hn] at h
    | some x =>
      simp only [hn, Option.some.injEq] at h
      exact ⟨_, _, h.symm⟩

theorem buildError_wrap (env : Env) (k : Call) (e : Error)
    (h : buildError env k = some e) : ∃ e1 msg, e = .Wrap e1 msg := by
  cases k with
  | get path val => exact buildErrorQuery_wrap env _ path val e h
  | del path val => exact buildErrorQuery_wrap env _ path val e h
  | post path val =>
    simp only [buildError] at h
    cases hp : env.Parse path with
    | error x =>
      simp only [hp, Option.some.injEq] at h
      exact ⟨_, _, h.symm⟩
    | ok u =>
      simp only [hp] at h
      cases hn : env.NewRequestError "POST" (env.URLString u) with
      | none => simp [hn] at h
      | some x =>
        simp only [hn, Option.some.injEq] at h
        exact ⟨_, _, h.symm⟩

/-- A call on a retired session returns at once, leaving session and world as
they are. -/
theorem runCall_retired (env : Env) (fuel : Nat) (c : Client) (w : World) (k : Call)
    (h : c.retired = true) : runCall env fuel c w k = some (retiredAnswer env k, c, w) := by
  unfold retiredAnswer
  cases hb : buildError env k with
  | some e =>
    cases k with
    | get path val => exact get_of_buildError env fuel c w path val e hb
    | del path val => exact del_of_buildError env fuel c w path val e hb
    | post path val => exact post_of_buildError env fuel c w path val e hb
  | none =>
    cases k with
    | get path val =>
      obtain ⟨us, _, hg⟩ := get_of_built env path val hb
      simp only [runCall]
      rw [hg, doRequest_retired env fuel c w _ h]
      rfl
    | del path val =>
      obtain ⟨req, hg⟩ := del_of_built env path val hb
      simp only [runCall]
      rw [hg, doRequest_retired env fuel c w _ h]
    | post path val =>
      obtain ⟨req, hg⟩ := post_of_built env path val hb
      simp only [runCall]
      rw [hg, doRequest_retired env fuel c w _ h]

theorem runCalls_retired (env : Env) (fuel : Nat) (c : Client) (w : World)
    (h : c.retired = true) :
    ∀ ks : List Call, runCalls env fuel c w ks = some (ks.map (retiredAnswer env), c, w) := by
  intro ks
  induction ks with
  | nil => rfl
  | cons k ks ih =>
    simp [runCalls, runCall_retired env fuel c w k h, ih]

theorem getFinish_retire (us : String) (r0 : Except Error ResponseWithElapsedTime)
    (c0 c1 : Client) (w0 w1 : World) (s : RetireText)
    (h : getFinish us (r0, c0, w0) = (.error (.ErrElapsedTimeOverRetire s), c1, w1)) :
    r0 = .error (.ErrElapsedTimeOverRetire s) ∧ c1 = c0 := by
  cases r0 with
  | error err =>
    simp only [getFinish, Prod.mk.injEq, Except.error.injEq] at h
    exact ⟨by rw [h.1], h.2.1.symm⟩
  | ok res =>
    simp only [getFinish] at h
    split at h
    · split at h
      · simp at h
      · simp at h
    · simp at h

/-- A call that returns `ErrElapsedTimeOverRetire` leaves the session retired. -/
theorem runCall_retires (env : Env) (fuel : Nat) (c : Client) (w : World) (k : Call)
    (s : RetireText) (c1 : Client) (w1 : World)
    (h : runCall env fuel c w k = some (.error (.ErrElapsedTimeOverRetire s), c1, w1)) :
    c1.retired = true := by
  cases hb : buildError env k with
  | some e =>
    obtain ⟨e1, msg, he⟩ := buildError_wrap env k e hb
    have hr : runCall env fuel c w k = some (.error e, c, w) := by
      cases k with
      | get path val => exact get_of_buildError env fuel c w path val e hb
      | del path val => exact del_of_buildError env fuel c w path val e hb
      | post path val => exact post_of_buildError env fuel c w path val e hb
    rw [hr, he] at h
    simp at h
  | none =>
    cases k with
    | get path val =>
      obtain ⟨us, _, hg⟩ := get_of_built env path val hb
      simp only [runCall] at h
      rw [hg] at h
      cases hd : doRequest env fuel c w (getRequest c us) with
      | none => simp [hd] at h
      | some x =>
        obtain ⟨r0, c0, w0⟩ := x
        simp only [hd, Option.map_some', Option.some.injEq] at h
        obtain ⟨hr0, hc⟩ := getFinish_retire us r0 c0 c1 w0 w1 s h
        subst hc
        exact (doRequest_shape env fuel c w _ r0 c1 w0 hd).2.1 ⟨s, hr0⟩
    | del path val =>
      obtain ⟨req, hg⟩ := del_of_built env path val hb
      simp only [runCall] at h
      rw [hg] at h
      exact (doRequest_shape env fuel c w _ _ c1 w1 h).2.1 ⟨s, rfl⟩
    | post path val =>
      obtain ⟨req, hg⟩ := post_of_built env path val hb
      simp only [runCall] at h
      rw [hg] at h
      exact (doRequest_shape env fuel c w _ _ c1 w1 h).2.1 ⟨s, rfl⟩

/-- C1, as amended.  Retirement is one-way.  Once a call of `get`, `post` or
`del` has returned `ErrElapsedTimeOverRetire`, the session is retired, and
whatever calls follow, with whatever fuel, each of them returns at once: the
session (so the flag `retired`) and the world (so the record of transport
attempts and the clock) are after all of them what they were, and each call
returns the error of building its request when its path does not parse or
`http.NewRequest` fails, and `ErrAlreadyRetired` in every other case. -/
theorem retirement_is_one_way (env : Env) (fuel : Nat) (c : Client) (w : World) (k : Call)
    (s : RetireText) (c1 : Client) (w1 : World)
    (h : runCall env fuel c w k = some (.error (.ErrElapsedTimeOverRetire s), c1, w1)) :
    c1.retired = true ∧
    ∀ (later : List Call) (fuel2 : Nat),
      runCalls env fuel2 c1 w1 later = some (later.map (retiredAnswer env), c1, w1) ∧
      ∀ k2 ∈ later, buildError env k2 = none →
        retiredAnswer env k2 = .error .ErrAlreadyRetired := by
  have hr := runCall_retires env fuel c w k s c1 w1 h
  refine ⟨hr, fun later fuel2 => ⟨runCalls_retired env fuel2 c1 w1 hr later, ?_⟩⟩
  intro k2 _ hk2
  simp [retiredAnswer, hk2]

/-- C1 as amended, at a concrete input: a `get` whose only attempt times out
retires the session; a `post`, a `get` of the path `:` and a `del` that follow
make no attempt, and return `ErrAlreadyRetired`, the parse error and
`ErrAlreadyRetired`. -/
theorem retirement_is_one_way_witness :
    runCalls (demoEnv 500 (always ⟨1000, .failure (.urlError true "net/http: timeout")⟩) [])
        0 { demoClient 3000 with retired := true } { now := 1000, sent := [0] }
        [.post "/orders" [], .get ":" [], .del "/order/7" []]
      = some ([.error .ErrAlreadyRetired,
               .error (.Wrap (.lib "missing protocol scheme") "url parse failed"),
               .error .ErrAlreadyRetired],
          { demoClient 3000 with retired := true }, { now := 1000, sent := [0] }) :=
  ((retirement_is_one_way
      (demoEnv 500 (always ⟨1000, .failure (.urlError true "net/http: timeout")⟩) [])
      1 (demoClient 3000) world0 (.get "/info" []) (.timeout "net/http: timeout")
      { demoClient 3000 with retired := true } { now := 1000, sent := [0] } (by decide)).2
    [.post "/orders" [], .get ":" [], .del "/order/7" []] 0).1

/-- C1 as stated fails: after a `get` that returned `ErrElapsedTimeOverRetire`,
a `get` of the path `:` returns the wrapped parse error, not
`ErrAlreadyRetired`. -/
theorem retired_call_may_return_parse_error :
    (runCalls (demoEnv 500 (always ⟨1000, .failure (.urlError true "net/http: timeout")⟩) [])
        1 (demoClient 3000) world0 [.get "/info" [], .get ":" []]).map (fun x => x.1)
      = some [.error (.ErrElapsedTimeOverRetire (.timeout "net/http: timeout")),
              .error (.Wrap (.lib "missing protocol scheme") "url parse failed")]
    ∧ (Except.error (.Wrap (.lib "missing protocol scheme") "url parse failed") :
        Except Error ResponseWithElapsedTime) ≠ .error .ErrAlreadyRetired := by
  decide

/-! ### Retrying on status 5xx -/

theorem doRequestHead_zero (env : Env) (c : Client) (w : World) (req : Request)
    (hc : c.retired = false) (hb : readBodyError req = none) :
    doRequestHead env c w req 0 = some w := by
  simp [doRequestHead, hc, hb, loopHead]

theorem doRequestHead_step (env : Env) (c : Client) (w wk : World) (req : Request) (k : Nat)
    (h : doRequestHead env c w req k = some wk) (r : Returned)
    (hs : doRequestStep env c (withUserAgent req) w.now wk = .ret r) :
    ∀ j, doRequest env (k + (j + 1)) c w req = some r := by
  intro j
  rw [(doRequest_of_head env c w wk req k h).2.2 (j + 1)]
  exact loop_ret env c _ _ wk r hs j

theorem step_5xx (env : Env) (c : Client) (req : Request) (start : Nat) (w : World)
    (res : Response) (h : (env.Do w.attempts req).outcome = .response res)
    (h5 : 500 ≤ res.StatusCode) :
    doRequestStep env c req start w =
      if c.retireto < ((w.now + (env.Do w.attempts req).latency : Nat) : Int) - (start : Int) then
        .ret (.error (.ErrElapsedTimeOverRetire
            (.gaveUp (((w.now + (env.Do w.attempts req).latency : Nat) : Int) - (start : Int)))),
          { c with retired := true },
          { now := w.now + (env.Do w.attempts req).latency, sent := w.now :: w.sent })
      else
        .next { now := w.now + (env.Do w.attempts req).latency + env.RetryInterval,
                sent := w.now :: w.sent } := by
  rw [step_response env c req start w res h, if_neg (not_lt.mpr h5)]

theorem loop_never_succeeds (env : Env) (c : Client) (req : Request) (start : Nat)
    (h5xx : ∀ n r, ∃ res, (env.Do n r).outcome = .response res ∧ 500 ≤ res.StatusCode) :
    ∀ (fuel : Nat) (w : World) (res : ResponseWithElapsedTime) (c1 : Client) (w1 : World),
      doRequestLoop env c req start fuel w ≠ some (.ok res, c1, w1) := by
  intro fuel
  induction fuel with
  | zero => intro w res c1 w1 h; simp [doRequestLoop] at h
  | succ n ih =>
    intro w res c1 w1 h
    obtain ⟨r, hr, h5⟩ := h5xx w.attempts req
    rw [doRequestLoop, step_5xx env c req start w r hr h5] at h
    by_cases hslow : c.retireto < ((w.now + (env.Do w.attempts req).latency : Nat) : Int) - (start : Int)
    · rw [if_pos hslow] at h
      simp at h
    · rw [if_neg hslow] at h
      exact ih _ res c1 w1 h

theorem reaches_slow_attempt (env : Env) (c : Client) (w : World) (req : Request)
    (h5xx : ∀ n r, ∃ res, (env.Do n r).outcome = .response res ∧ 500 ≤ res.StatusCode)
    (hadv : 0 < env.RetryInterval ∨ ∀ n r, 0 < (env.Do n r).latency) :
    ∀ (m k : Nat) (wk : World), doRequestHead env c w req k = some wk →
      (c.retireto - ((wk.now : Int) - (w.now : Int)) + 1).toNat ≤ m →
      ∃ k1 w1, doRequestHead env c w req k1 = some w1 ∧
        c.retireto < (measuredAt env req w1 : Int) - (w.now : Int) := by
  intro m
  induction m with
  | zero =>
    intro k wk hk hm
    refine ⟨k, wk, hk, ?_⟩
    simp only [measuredAt]
    push_cast
    omega
  | succ m ih =>
    intro k wk hk hm
    by_cases hslow : c.retireto < (measuredAt env req wk : Int) - (w.now : Int)
    · exact ⟨k, wk, hk, hslow⟩
    · obtain ⟨r, hr, h5⟩ := h5xx wk.attempts (withUserAgent req)
      have hstep := step_5xx env c (withUserAgent req) w.now wk r hr h5
      simp only [measuredAt] at hslow
      rw [if_neg hslow] at hstep
      have hnext := doRequestHead_succ env c w wk _ req k hk hstep
      apply ih (k + 1) _ hnext
      have hlat : 0 < env.RetryInterval ∨ 0 < (env.Do wk.attempts (withUserAgent req)).latency := by
        rcases hadv with h | h
        · exact Or.inl h
        · exact Or.inr (h _ _)
      push_cast at hslow ⊢
      omega

/-- C5, as amended.  Status 5xx is retried until the time elapsed exceeds the
threshold.  For a session that is not retired, a request whose body can be
read and a transport that answers every attempt with a status of 500 or more:
`doRequest` never returns a response; at every attempt it makes, if the time
elapsed since the start of the call (never reset) when the response arrives is
at most the threshold, it sleeps `RetryInterval` and makes the next attempt,
and if it is greater than the threshold it returns `ErrElapsedTimeOverRetire`
with `retired` set; and when time advances between attempts (the retry
interval or every latency is positive) it does reach such an attempt, and so,
given the fuel, returns that terminal error. -/
theorem server_errors_retried_until_over_threshold (env : Env) (c : Client) (w : World)
    (req : Request) (hc : c.retired = false) (hb : readBodyError req = none)
    (h5xx : ∀ n r, ∃ res, (env.Do n r).outcome = .response res ∧ 500 ≤ res.StatusCode) :
    (∀ fuel res c1 w1, doRequest env fuel c w req ≠ some (.ok res, c1, w1)) ∧
    (∀ k wk, doRequestHead env c w req k = some wk →
      ((measuredAt env req wk : Int) - (w.now : Int) ≤ c.retireto →
        doRequestHead env c w req (k + 1)
          = some { now := measuredAt env req wk + env.RetryInterval, sent := wk.now :: wk.sent }) ∧
      (c.retireto < (measuredAt env req wk : Int) - (w.now : Int) →
        ∀ j, doRequest env (k + (j + 1)) c w req
          = some (.error (.ErrElapsedTimeOverRetire
                    (.gaveUp ((measuredAt env req wk : Int) - (w.now : Int)))),
              { c with retired := true },
              { now := measuredAt env req wk, sent := wk.now :: wk.sent }))) ∧
    ((0 < env.RetryInterval ∨ ∀ n r, 0 < (env.Do n r).latency) →
      ∃ k wk, doRequestHead env c w req k = some wk ∧
        c.retireto < (measuredAt env req wk : Int) - (w.now : Int) ∧
        ∀ j, doRequest env (k + (j + 1)) c w req
          = some (.error (.ErrElapsedTimeOverRetire
                    (.gaveUp ((measuredAt env req wk : Int) - (w.now : Int)))),
              { c with retired := true },
              { now := measuredAt env req wk, sent := wk.now :: wk.sent })) := by
  have hstepRet : ∀ k wk, doRequestHead env c w req k = some wk →
      c.retireto < (measuredAt env req wk : Int) - (w.now : Int) →
      ∀ j, doRequest env (k + (j + 1)) c w req
        = some (.error (.ErrElapsedTimeOverRetire
                  (.gaveUp ((measuredAt env req wk : Int) - (w.now : Int)))),
            { c with retired := true },
            { now := measuredAt env req wk, sent := wk.now :: wk.sent }) := by
    intro k wk hk hslow
    apply doRequestHead_step env c w wk req k hk
    obtain ⟨r, hr, h5⟩ := h5xx wk.attempts (withUserAgent req)
    rw [step_5xx env c _ _ wk r hr h5]
    simp only [measuredAt] at hslow ⊢
    rw [if_pos hslow]
  refine ⟨?_, ?_, ?_⟩
  · intro fuel res c1 w1 h
    unfold doRequest at h
    simp only [hc, hb] at h
    exact loop_never_succeeds env c _ _ h5xx fuel w res c1 w1 (by simpa using h)
  · intro k wk hk
    refine ⟨?_, hstepRet k wk hk⟩
    intro hle
    apply doRequestHead_succ env c w wk _ req k hk
    obtain ⟨r, hr, h5⟩ := h5xx wk.attempts (withUserAgent req)
    rw [step_5xx env c _ _ wk r hr h5]
    simp only [measuredAt] at hle ⊢
    rw [if_neg (not_lt.mpr hle)]
  · intro hadv
    obtain ⟨k, wk, hk, hslow⟩ := reaches_slow_attempt env c w req h5xx hadv _ 0 w
      (doRequestHead_zero env c w req hc hb) (le_refl _)
    exact ⟨k, wk, hk, hslow, hstepRet k wk hk hslow⟩

/-- C5 as amended, at a concrete input: status 503 after 400, retry interval
500, threshold 3000.  The first response arrives at 400, so the second attempt
is made at 900; and the call reaches an attempt whose response arrives after
the threshold and returns the terminal error there. -/
theorem server_errors_retried_until_over_threshold_witness :
    doRequestHead (demoEnv 500 (always ⟨400, respond 503 []⟩) []) (demoClient 3000) world0
        demoRequest 1 = some { now := 900, sent := [0] }
    ∧ ∃ k wk, doRequestHead (demoEnv 500 (always ⟨400, respond 503 []⟩) []) (demoClient 3000)
          world0 demoRequest k = some wk ∧
        (demoClient 3000).retireto
          < (measuredAt (demoEnv 500 (always ⟨400, respond 503 []⟩) []) demoRequest wk : Int)
            - (world0.now : Int) ∧
        ∀ j, doRequest (demoEnv 500 (always ⟨400, respond 503 []⟩) []) (k + (j + 1))
            (demoClient 3000) world0 demoRequest
          = some (.error (.ErrElapsedTimeOverRetire (.gaveUp
                ((measuredAt (demoEnv 500 (always ⟨400, respond 503 []⟩) []) demoRequest wk : Int)
                  - (world0.now : Int)))),
              { demoClient 3000 with retired := true },
              { now := measuredAt (demoEnv 500 (always ⟨400, respond 503 []⟩) []) demoRequest wk,
                sent := wk.now :: wk.sent }) :=
  have h := server_errors_retried_until_over_threshold
    (demoEnv 500 (always ⟨400, respond 503 []⟩) []) (demoClient 3000) world0 demoRequest
    (by decide) (by decide) (fun _ _ => ⟨_, rfl, by decide⟩)
  ⟨(h.2.1 0 world0 (by decide)).1 (by decide), h.2.2 (Or.inl (by decide))⟩

/-- C5 as stated fails at the threshold itself: with threshold 3000, retry
interval 500 and a 503 that arrives at exactly 3000, the elapsed time measured
after the first attempt is at least the threshold, yet `doRequest` does not
return there: it sleeps, makes a second attempt at 3500, and returns only
after that one, at 6500. -/
theorem server_error_at_threshold_is_retried :
    (demoClient 3000).retireto
      ≤ (measuredAt (demoEnv 500 (always ⟨3000, respond 503 []⟩) []) demoRequest world0 : Int)
        - (world0.now : Int)
    ∧ doRequest (demoEnv 500 (always ⟨3000, respond 503 []⟩) []) 1 (demoClient 3000) world0
        demoRequest = none
    ∧ doRequestHead (demoEnv 500 (always ⟨3000, respond 503 []⟩) []) (demoClient 3000) world0
        demoRequest 1 = some { now := 3500, sent := [0] }
    ∧ doRequest (demoEnv 500 (always ⟨3000, respond 503 []⟩) []) 2 (demoClient 3000) world0
        demoRequest
      = some (.error (.ErrElapsedTimeOverRetire (.gaveUp 6500)),
          { demoClient 3000 with retired := true }, { now := 6500, sent := [3500, 0] }) := by
  decide

/-! ### The number of attempts under a constant 5xx answer -/

theorem constant_5xx_heads (env : Env) (c : Client) (req : Request) (w : World)
    (L I T : Nat) (res : Response)
    (hT : c.retireto = (T : Int)) (hI : env.RetryInterval = I)
    (hdo : ∀ n r, env.Do n r = ⟨L, .response res⟩) (h5 : 500 ≤ res.StatusCode) :
    ∀ k, k * (I + L) ≤ T + I →
      loopHead env c req w.now k w
        = some { now := w.now + k * (I + L), sent := attemptTimes w.now (I + L) k ++ w.sent } := by
  intro k
  induction k with
  | zero => intro _; simp [loopHead, attemptTimes]
  | succ k ih =>
    intro hk
    have hmul : (k + 1) * (I + L) = k * (I + L) + (I + L) := by ring
    rw [hmul] at hk ⊢
    have hk0 : k * (I + L) ≤ T + I := by omega
    apply loopHead_succ env c req w.now k w _ _ (ih hk0)
    rw [step_5xx env c req w.now _ res (by rw [hdo]) h5]
    simp only [hdo, hT, hI, attemptTimes, List.cons_append]
    generalize k * (I + L) = P at hk hk0 ⊢
    rw [if_neg]
    · simp only [Step.next.injEq, World.mk.injEq, and_true]
      omega
    · push_cast
      omega

/-- C7, as amended.  The number of attempts under a constant 5xx answer.  For
a session that is not retired with threshold `T`, a request whose body can be
read, retry interval `I`, and a transport that answers every attempt with the
same response of status 500 or more after the same latency `L > 0`:
`doRequest` makes exactly `(T + I) / (I + L) + 1` attempts, attempt number `i`
starting `i * (I + L)` after the call; with that much fuel or more it returns
`ErrElapsedTimeOverRetire` with `retired` set, the response of the last attempt
having arrived `((T + I) / (I + L)) * (I + L) + L` after the call, which is
more than `T`; with less fuel it has not returned.  That number of attempts
is `T / (I + L) + 1` or `T / (I + L) + 2`. -/
theorem attempts_under_constant_5xx (env : Env) (c : Client) (w : World) (req : Request)
    (L I T : Nat) (res : Response)
    (hc : c.retired = false) (hb : readBodyError req = none)
    (hT : c.retireto = (T : Int)) (hI : env.RetryInterval = I)
    (hdo : ∀ n r, env.Do n r = ⟨L, .response res⟩) (h5 : 500 ≤ res.StatusCode)
    (hL : 0 < L) :
    (∀ j, doRequest env ((T + I) / (I + L) + 1 + j) c w req
      = some (.error (.ErrElapsedTimeOverRetire
                (.gaveUp (((T + I) / (I + L) * (I + L) + L : Nat) : Int))),
          { c with retired := true },
          { now := w.now + ((T + I) / (I + L) * (I + L) + L),
            sent := attemptTimes w.now (I + L) ((T + I) / (I + L) + 1) ++ w.sent })) ∧
    T < (T + I) / (I + L) * (I + L) + L ∧
    (∀ fuel, fuel < (T + I) / (I + L) + 1 → doRequest env fuel c w req = none) ∧
    T / (I + L) + 1 ≤ (T + I) / (I + L) + 1 ∧
    (T + I) / (I + L) + 1 ≤ T / (I + L) + 2 := by
  have hD : 0 < I + L := by omega
  have hq : (T + I) / (I + L) * (I + L) ≤ T + I := Nat.div_mul_le_self _ _
  have hq2 : T + I < ((T + I) / (I + L) + 1) * (I + L) := by
    have := Nat.lt_succ_self ((T + I) / (I + L))
    exact (Nat.div_lt_iff_lt_mul hD).mp this
  have hq3 : ((T + I) / (I + L) + 1) * (I + L) = (T + I) / (I + L) * (I + L) + (I + L) := by ring
  rw [hq3] at hq2
  have hheads := constant_5xx_heads env c (withUserAgent req) w L I T res hT hI hdo h5
  have hhead : ∀ k, k * (I + L) ≤ T + I → doRequestHead env c w req k
      = some { now := w.now + k * (I + L), sent := attemptTimes w.now (I + L) k ++ w.sent } := by
    intro k hk
    simp only [doRequestHead, hc, hb]
    simpa using hheads k hk
  refine ⟨?_, by omega, ?_, ?_, ?_⟩
  · intro j
    have hadd : (T + I) / (I + L) + 1 + j = (T + I) / (I + L) + (j + 1) := by omega
    rw [hadd]
    apply doRequestHead_step env c w _ req _ (hhead _ hq)
    rw [step_5xx env c _ w.now _ res (by rw [hdo]) h5]
    simp only [hdo, hT, attemptTimes, List.cons_append]
    generalize (T + I) / (I + L) * (I + L) = P at hq hq2 ⊢
    rw [if_pos]
    · simp only [Step.ret.injEq, Prod.mk.injEq,
        Except.error.injEq, Error.ErrElapsedTimeOverRetire.injEq, RetireText.gaveUp.injEq,
        World.mk.injEq, true_and, and_true]
      refine ⟨?_, ?_⟩
      · push_cast
        omega
      · omega
    · push_cast
      omega
  · intro fuel hfuel
    have hle : fuel ≤ (T + I) / (I + L) := by omega
    have hfl : fuel * (I + L) ≤ T + I := le_trans (Nat.mul_le_mul_right _ hle) hq
    have := (doRequest_of_head env c w _ req fuel (hhead fuel hfl)).2.2 0
    simpa [doRequestLoop] using this
  · exact Nat.succ_le_succ (Nat.div_le_div_right (Nat.le_add_right T I))
  · have h1 : (T + I) / (I + L) ≤ (T + (I + L)) / (I + L) :=
      Nat.div_le_div_right (by omega)
    rw [Nat.add_div_right T hD] at h1
    omega

/-- C7 as amended, at the scenario of the spec: status 503 after 400, no
pause between attempts, threshold 3000.  Eight attempts start at 0, 400, ...,
2800 and the call gives up at 3200. -/
theorem attempts_under_constant_5xx_witness :
    doRequest (demoEnv 0 (always ⟨400, respond 503 []⟩) []) 8 (demoClient 3000) world0
        demoRequest
      = some (.error (.ErrElapsedTimeOverRetire (.gaveUp 3200)),
          { demoClient 3000 with retired := true },
          { now := 3200, sent := [2800, 2400, 2000, 1600, 1200, 800, 400, 0] })
    ∧ (3000 + 0) / (0 + 400) + 1 = 8 :=
  ⟨(attempts_under_constant_5xx (demoEnv 0 (always ⟨400, respond 503 []⟩) [])
      (demoClient 3000) world0 demoRequest 400 0 3000
      { StatusCode := 503, Header := [], Body := .ok "" }
      (by decide) (by decide) (by decide) (by decide) (fun _ _ => rfl) (by decide)
      (by decide)).1 0, by decide⟩

/-- C7 as stated fails: with status 503 after 400, retry interval 850 and
threshold 3000, `doRequest` makes four attempts (at 0, 1250, 2500 and 3750)
while `3000 / (850 + 400)` is 2, so the count is off by two. -/
theorem attempts_exceed_quotient_by_two :
    doRequest (demoEnv 850 (always ⟨400, respond 503 []⟩) []) 4 (demoClient 3000) world0
        demoRequest
      = some (.error (.ErrElapsedTimeOverRetire (.gaveUp 4150)),
          { demoClient 3000 with retired := true },
          { now := 4150, sent := [3750, 2500, 1250, 0] })
    ∧ doRequest (demoEnv 850 (always ⟨400, respond 503 []⟩) []) 3 (demoClient 3000) world0
        demoRequest = none
    ∧ 3000 / (850 + 400) = 2
    ∧ ¬ (4 ≤ 3000 / (850 + 400) + 1) := by
  decide

/-! ### The cache and the retirement decision -/

theorem step_setCache (env : Env) (c : Client) (s : CacheStore) (r1 r2 : Request)
    (start : Nat) (w : World) (hD : ∀ n, env.Do n r2 = env.Do n r1) :
    doRequestStep env (setCache s c) r2 start w
      = match doRequestStep env c r1 start w with
        | .next w1 => .next w1
        | .ret x => .ret (x.1, setCache s x.2.1, x.2.2) := by
  unfold doRequestStep
  rw [hD]
  simp only [setCache]
  cases (env.Do w.attempts r1).outcome with
  | failure err =>
    simp only
    split
    · rfl
    · split <;> rfl
  | response res =>
    simp only
    split
    · rfl
    · split <;> rfl

theorem loop_setCache (env : Env) (c : Client) (s : CacheStore) (r1 r2 : Request)
    (start : Nat) (hD : ∀ n, env.Do n r2 = env.Do n r1) :
    ∀ (fuel : Nat) (w : World),
      doRequestLoop env (setCache s c) r2 start fuel w
        = (doRequestLoop env c r1 start fuel w).map (fun x => (x.1, setCache s x.2.1, x.2.2)) := by
  intro fuel
  induction fuel with
  | zero => intro w; rfl
  | succ n ih =>
    intro w
    rw [doRequestLoop, doRequestLoop, step_setCache env c s r1 r2 start w hD]
    cases doRequestStep env c r1 start w with
    | ret x => rfl
    | next w1 => exact ih w1

theorem doRequest_setCache (env : Env) (fuel : Nat) (c : Client) (s : CacheStore)
    (r1 r2 : Request) (w : World)
    (hblind : ∀ n q1 q2, q1.Method = q2.Method → q1.URL = q2.URL → q1.Body = q2.Body →
      env.Do n q1 = env.Do n q2)
    (hm : r2.Method = r1.Method) (hu : r2.URL = r1.URL) (hbody : r2.Body = r1.Body) :
    doRequest env fuel (setCache s c) w r2
      = (doRequest env fuel c w r1).map (fun x => (x.1, setCache s x.2.1, x.2.2)) := by
  have hrb : readBodyError r2 = readBodyError r1 := by simp [readBodyError, hbody]
  unfold doRequest
  rw [hrb]
  cases hr : c.retired with
  | true => simp [setCache, hr]
  | false =>
    have hr2 : (setCache s c).retired = false := hr
    simp only [hr2]
    cases readBodyError r1 with
    | some e => simp
    | none =>
      simpa using loop_setCache env c s (withUserAgent r1) (withUserAgent r2) w.now
        (fun n => hblind n _ _ hm hu hbody) fuel w

theorem getRequest_fields (c : Client) (us : String) :
    (getRequest c us).Method = "GET" ∧ (getRequest c us).URL = us ∧
      (getRequest c us).Body = none := by
  unfold getRequest
  cases c.cache.Get us with
  | none => exact ⟨rfl, rfl, rfl⟩
  | some e => exact ⟨rfl, rfl, rfl⟩

theorem sansCache_getFinish (us : String) (s : CacheStore)
    (x : Returned) :
    sansCache (getFinish us (x.1, setCache s x.2.1, x.2.2)) = sansCache (getFinish us x) := by
  obtain ⟨r, c1, w1⟩ := x
  cases r with
  | error err => rfl
  | ok res =>
    simp only [getFinish]
    split
    · cases res.Response.Body with
      | error e => rfl
      | ok body =>
        simp only
        cases NewURLCache res.Response body <;> rfl
    · rfl

/-- C8. The cache never influences the retirement decision.  Take two
sessions that differ in their cache stores only and a transport whose answer
(latency and outcome) to an attempt does not depend on the headers of the
request.  Then a `get` of the same path with the same parameters and the same
fuel behaves the same way on both: up to the cache store of the session left
behind, both return the same outcome (the same response with the same recorded
elapsed time, or the same error), the same value of `retired`, the same clock
and the same record of attempts, or both are still running.  And applying a
cache entry to a request changes its headers only. -/
theorem cache_never_influences_retirement (env : Env) (fuel : Nat) (c : Client) (w : World)
    (path : String) (val : Values) (store1 store2 : CacheStore)
    (hblind : ∀ n q1 q2, q1.Method = q2.Method → q1.URL = q2.URL → q1.Body = q2.Body →
      env.Do n q1 = env.Do n q2) :
    (get env fuel { c with cache := store1 } w path val).map sansCache
      = (get env fuel { c with cache := store2 } w path val).map sansCache
    ∧ ∀ (e : URLCache) (req : Request),
        (e.ApplyRequest req).Method = req.Method ∧ (e.ApplyRequest req).URL = req.URL ∧
          (e.ApplyRequest req).Body = req.Body := by
  refine ⟨?_, fun e req => ⟨rfl, rfl, rfl⟩⟩
  cases hb : buildErrorQuery env "GET" path val with
  | some e =>
    rw [get_of_buildError env fuel _ w path val e hb, get_of_buildError env fuel _ w path val e hb]
    rfl
  | none =>
    obtain ⟨us, _, hg⟩ := get_of_built env path val hb
    rw [hg, hg]
    obtain ⟨m1, u1, b1⟩ := getRequest_fields { c with cache := store1 } us
    obtain ⟨m2, u2, b2⟩ := getRequest_fields { c with cache := store2 } us
    have h := doRequest_setCache env fuel { c with cache := store1 } store2
      (getRequest { c with cache := store1 } us) (getRequest { c with cache := store2 } us) w
      hblind (by rw [m1, m2]) (by rw [u1, u2]) (by rw [b1, b2])
    have h2 : setCache store2 { c with cache := store1 } = { c with cache := store2 } := rfl
    rw [h2] at h
    rw [h]
    cases doRequest env fuel { c with cache := store1 } w
        (getRequest { c with cache := store1 } us) with
    | none => rfl
    | some x =>
      simp only [Option.map_some', Option.some.injEq]
      exact (sansCache_getFinish us store2 x).symm

/-- C8 at a concrete input: a response that arrives at 3001 with threshold
3000.  The warmed session sends `If-None-Match`, the cold one does not, and
both calls make one attempt and retire. -/
theorem cache_never_influences_retirement_witness :
    (get (demoEnv 500 (always ⟨3001, respond 200 [("ETag", ["v2"])]⟩) []) 1
        { demoClient 3000 with cache := warmStore } world0 "/info" []).map sansCache
      = (get (demoEnv 500 (always ⟨3001, respond 200 [("ETag", ["v2"])]⟩) []) 1
        { demoClient 3000 with cache := NewCacheStore } world0 "/info" []).map sansCache
    ∧ get (demoEnv 500 (always ⟨3001, respond 200 [("ETag", ["v2"])]⟩) []) 1
        { demoClient 3000 with cache := NewCacheStore } world0 "/info" []
      = some (.error (.ErrElapsedTimeOverRetire (.gaveUp 3001)),
          { demoClient 3000 with retired := true }, { now := 3001, sent := [0] })
    ∧ (getRequest { demoClient 3000 with cache := warmStore } "http://localhost:5000/info").Header
      = [("If-None-Match", ["v1"])] :=
  ⟨(cache_never_influences_retirement
      (demoEnv 500 (always ⟨3001, respond 200 [("ETag", ["v2"])]⟩) []) 1 (demoClient 3000)
      world0 "/info" [] warmStore NewCacheStore (fun _ _ _ _ _ _ => rfl)).1,
   by decide, by decide⟩

/-! ### The cache store -/

theorem lookup_filter_ne (l : List (String × URLCache)) (k u : String) (h : k ≠ u) :
    (l.filter (fun p => p.1 != u)).lookup k = l.lookup k := by
  induction l with
  | nil => rfl
  | cons p l ih =>
    obtain ⟨a, b⟩ := p
    by_cases ha : a = u
    · subst ha
      have hka : (k == a) = false := by simpa using h
      simp [List.filter, List.lookup, hka, ih]
    · have hne : (a != u) = true := by simpa using ha
      simp only [List.filter, hne, List.lookup]
      cases hk : (k == a) with
      | true => rfl
      | false => simpa using ih

theorem Get_Set_self (s : CacheStore) (u : String) (e : URLCache) :
    (s.Set u e).Get u = some e := by
  simp [CacheStore.Get, CacheStore.Set, List.lookup]

theorem Get_Set_ne (s : CacheStore) (u k : String) (e : URLCache) (h : k ≠ u) :
    (s.Set u e).Get k = s.Get k := by
  have hku : (k == u) = false := by simpa using h
  simp only [CacheStore.Get, CacheStore.Set, List.lookup, hku]
  exact lookup_filter_ne s.items k u h

theorem getFinish_cache (us : String) (r0 r : Except Error ResponseWithElapsedTime)
    (c0 c1 : Client) (w0 w1 : World) (h : getFinish us (r0, c0, w0) = (r, c1, w1)) :
    ((∀ res, r = .ok res → res.Response.StatusCode ≠ 200) → c1 = c0) ∧
    (∀ res, r = .ok res → res.Response.StatusCode = 200 →
      ∀ body, res.Response.Body = .ok body →
        (NewURLCache res.Response body = none → c1 = c0) ∧
        (∀ e, NewURLCache res.Response body = some e →
          c1 = { c0 with cache := c0.cache.Set us e })) := by
  cases r0 with
  | error err =>
    simp only [getFinish, Prod.mk.injEq] at h
    obtain ⟨rfl, rfl, rfl⟩ := h
    exact ⟨fun _ => rfl, fun res hres => by cases hres⟩
  | ok res0 =>
    simp only [getFinish] at h
    by_cases hs : res0.Response.StatusCode = 200
    · rw [if_pos hs] at h
      cases hbody : res0.Response.Body with
      | error e =>
        simp only [hbody, Prod.mk.injEq] at h
        obtain ⟨rfl, rfl, rfl⟩ := h
        exact ⟨fun _ => rfl, fun res hres => by cases hres⟩
      | ok body0 =>
        simp only [hbody, Prod.mk.injEq] at h
        obtain ⟨rfl, rfl, rfl⟩ := h
        refine ⟨fun hne => absurd hs
          (hne { res0 with Response := { res0.Response with Body := .ok body0 } } rfl), ?_⟩
        intro res hres _ body hb
        cases hres
        simp only [Except.ok.injEq] at hb
        subst hb
        have hn : NewURLCache { res0.Response with Body := .ok body0 } body0
            = NewURLCache res0.Response body0 := rfl
        rw [hn]
        constructor
        · intro hnone
          simp [hnone]
        · intro e he
          simp [he]
    · rw [if_neg hs] at h
      simp only [Prod.mk.injEq] at h
      obtain ⟨rfl, rfl, rfl⟩ := h
      refine ⟨fun _ => rfl, ?_⟩
      intro res hres h200
      cases hres
      exact absurd h200 hs

/-- C9.  Cache entries change only through a 200 GET, at that GET's URL,
most-recent-wins.  `post` and `del` leave the cache store as it is; so does a
`get` that returns an error or a response whose status is not 200; a `get`
that returns a response of status 200 from which no entry is built leaves it
as it is too, and one from which the entry `e` is built leaves the store
`c.cache.Set us e`, `us` being the fully-resolved URL string of the request:
the store then holds `e` under `us`, holds under every other key what it held
before, and `e` is the entry applied to the request of the next `get` of that
URL, whatever entry `us` had before. -/
theorem cache_changes_only_through_200_get (env : Env) (fuel : Nat) (c : Client) (w : World)
    (path : String) (val : Values) :
    (∀ r c1 w1, post env fuel c w path val = some (r, c1, w1) → c1.cache = c.cache) ∧
    (∀ r c1 w1, del env fuel c w path val = some (r, c1, w1) → c1.cache = c.cache) ∧
    (∀ r c1 w1, get env fuel c w path val = some (r, c1, w1) →
      (∀ res, r = .ok res → res.Response.StatusCode ≠ 200) → c1.cache = c.cache) ∧
    (∀ res c1 w1, get env fuel c w path val = some (.ok res, c1, w1) →
      res.Response.StatusCode = 200 → ∀ body, res.Response.Body = .ok body →
        (NewURLCache res.Response body = none → c1.cache = c.cache) ∧
        (∀ e, NewURLCache res.Response body = some e →
          ∃ us, resolve env path val = .ok us ∧
            c1.cache = c.cache.Set us e ∧
            c1.cache.Get us = some e ∧
            (∀ k, k ≠ us → c1.cache.Get k = c.cache.Get k) ∧
            getRequest c1 us
              = e.ApplyRequest { Method := "GET", URL := us, Header := [], Body := none } ∧
            ∀ fuel2 w2, get env fuel2 c1 w2 path val
              = (doRequest env fuel2 c1 w2
                  (e.ApplyRequest { Method := "GET", URL := us, Header := [], Body := none })).map
                  (getFinish us))) := by
  refine ⟨?_, ?_, ?_, ?_⟩
  · intro r c1 w1 h
    cases hb : buildError env (.post path val) with
    | some e =>
      rw [post_of_buildError env fuel c w path val e hb] at h
      simp only [Option.some.injEq, Prod.mk.injEq] at h
      rw [← h.2.1]
    | none =>
      obtain ⟨req, hp⟩ := post_of_built env path val hb
      rw [hp] at h
      exact (doRequest_shape env fuel c w req r c1 w1 h).1
  · intro r c1 w1 h
    cases hb : buildErrorQuery env "DELETE" path val with
    | some e =>
      rw [del_of_buildError env fuel c w path val e hb] at h
      simp only [Option.some.injEq, Prod.mk.injEq] at h
      rw [← h.2.1]
    | none =>
      obtain ⟨req, hp⟩ := del_of_built env path val hb
      rw [hp] at h
      exact (doRequest_shape env fuel c w req r c1 w1 h).1
  · intro r c1 w1 h hne
    cases hb : buildErrorQuery env "GET" path val with
    | some e =>
      rw [get_of_buildError env fuel c w path val e hb] at h
      simp only [Option.some.injEq, Prod.mk.injEq] at h
      rw [← h.2.1]
    | none =>
      obtain ⟨us, _, hg⟩ := get_of_built env path val hb
      rw [hg] at h
      cases hd : doRequest env fuel c w (getRequest c us) with
      | none => simp [hd] at h
      | some x =>
        obtain ⟨r0, c0, w0⟩ := x
        simp only [hd, Option.map_some', Option.some.injEq] at h
        have h1 := (getFinish_cache us r0 r c0 c1 w0 w1 h).1 hne
        rw [h1]
        exact (doRequest_shape env fuel c w _ r0 c0 w0 hd).1
  · intro res c1 w1 h h200 body hbody
    cases hb : buildErrorQuery env "GET" path val with
    | some e =>
      rw [get_of_buildError env fuel c w path val e hb] at h
      simp at h
    | none =>
      obtain ⟨us, hus, hg⟩ := get_of_built env path val hb
      rw [hg] at h
      cases hd : doRequest env fuel c w (getRequest c us) with
      | none => simp [hd] at h
      | some x =>
        obtain ⟨r0, c0, w0⟩ := x
        simp only [hd, Option.map_some', Option.some.injEq] at h
        have hc0 := (doRequest_shape env fuel c w _ r0 c0 w0 hd).1
        obtain ⟨hnone, hsome⟩ := (getFinish_cache us r0 _ c0 c1 w0 w1 h).2 res rfl h200 body hbody
        constructor
        · intro hn
          rw [hnone hn, hc0]
        · intro e he
          have hc1 : c1.cache = c.cache.Set us e := by
            rw [hsome e he, ← hc0]
          have hget : c1.cache.Get us = some e := by
            rw [hc1]; exact Get_Set_self _ _ _
          have hreq : getRequest c1 us
              = e.ApplyRequest { Method := "GET", URL := us, Header := [], Body := none } := by
            simp only [getRequest, hget]
          refine ⟨us, hus, hc1, hget, ?_, hreq, ?_⟩
          · intro k hk
            rw [hc1]
            exact Get_Set_ne _ _ _ _ hk
          · intro fuel2 w2
            rw [hg, hreq]

/-- C9 at the scenario of the spec: a 200 with entity tag `v1`, then a 200
with entity tag `v2`, for the same URL.  After the second the store holds the
`v2` entry and the next request carries `If-None-Match: v2`. -/
theorem cache_changes_only_through_200_get_witness :
    get etagEnv 1 (demoClient 3000) world0 "/" []
      = some (.ok { Response := { StatusCode := 200, Header := [("ETag", ["v1"])], Body := .ok "" },
                    ElapsedTime := 100 },
          sessionTagged "v1", { now := 100, sent := [0] })
    ∧ get etagEnv 1 (sessionTagged "v1") { now := 100, sent := [0] } "/" []
      = some (.ok { Response := { StatusCode := 200, Header := [("ETag", ["v2"])], Body := .ok "" },
                    ElapsedTime := 100 },
          sessionTagged "v2", { now := 200, sent := [100, 0] })
    ∧ (sessionTagged "v2").cache.Get "http://localhost:5000/" = some (etagEntry "v2")
    ∧ (getRequest (sessionTagged "v2") "http://localhost:5000/").Header
      = [("If-None-Match", ["v2"])] := by
  have h := ((cache_changes_only_through_200_get etagEnv 1 (sessionTagged "v1")
    { now := 100, sent := [0] } "/" []).2.2.2
    { Response := { StatusCode := 200, Header := [("ETag", ["v2"])], Body := .ok "" },
      ElapsedTime := 100 }
    (sessionTagged "v2") { now := 200, sent := [100, 0] } (by decide) (by decide) ""
    (by decide)).2 (etagEntry "v2") (by decide)
  obtain ⟨us, hus, _, hget, _, hreq, _⟩ := h
  have h0 : resolve etagEnv "/" [] = .ok "http://localhost:5000/" := by decide
  rw [h0] at hus
  cases hus
  refine ⟨by decide, by decide, hget, ?_⟩
  rw [hreq]
  decide

/-! ### `GetOrders` -/

/-- With the variable `err` nil, the loop of `GetOrders` returns a nil error
whatever the orders are, and returns the list only if every order passes the
four checks. -/
theorem checkOrders_nil_err (c : Client) (orders : List Order) :
    ∀ rest : List Order,
      (checkOrders c none orders rest).2 = none ∧
      ((checkOrders c none orders rest).1 = some orders ↔ ∀ o ∈ rest, passesChecks c o = true) ∧
      ((checkOrders c none orders rest).1 = none ↔ ∃ o ∈ rest, passesChecks c o = false) := by
  intro rest
  induction rest with
  | nil => simp [checkOrders]
  | cons o rest ih =>
    rw [checkOrders]
    by_cases h1 : o.UserID = c.userID
    · cases hu : o.User with
      | none => simp [h1, hu, Wrapf, passesChecks]
      | some user =>
        by_cases h2 : user.Name = c.name
        · by_cases h3 : o.TradeID ≠ 0 ∧ o.Trade = none
          · have h3a := h3.1
            have h3b := h3.2
            simp [h1, hu, h2, h3a, h3b, Wrapf, passesChecks]
          · have hp : passesChecks c o = true := by
              simp only [passesChecks, h1, hu, h2, beq_self_eq_true, Bool.and_self, Bool.true_and,
                Bool.not_eq_true', Bool.and_eq_false_imp, bne_iff_ne, ne_eq,
                Option.isNone_iff_eq_none]
              intro hne
              cases ht : o.Trade with
              | none => exact absurd ⟨hne, ht⟩ h3
              | some t => rfl
            simp only [h1, hu, h2, h3, ne_eq, not_true_eq_false, if_false, List.mem_cons,
              forall_eq_or_imp, hp, true_and, exists_eq_or_imp, Bool.true_eq_false, false_or]
            exact ih
        · simp [h1, hu, h2, Wrapf, passesChecks]
    · simp [h1, Wrapf, passesChecks]

/-- When `GET /orders` succeeds with status 200 and a list that decodes, the
error `GetOrders` returns is nil, and the list it returns is the decoded list
if every order passes the four checks and nil if one does not. -/
theorem GetOrders_error_is_nil (env : Env) (fuel : Nat) (c c1 : Client) (w w1 : World)
    (res : ResponseWithElapsedTime) (b : String) (orders : List Order)
    (hget : get env fuel c w "/orders" [] = some (.ok res, c1, w1))
    (h200 : res.Response.StatusCode = 200) (hbody : res.Response.Body = .ok b)
    (hdec : env.DecodeOrders b = .ok orders) :
    ∃ l, GetOrders env fuel c w = some ((l, none), c1, w1) ∧
      (l = some orders ↔ ∀ o ∈ orders, passesChecks c1 o = true) ∧
      (l = none ↔ ∃ o ∈ orders, passesChecks c1 o = false) := by
  obtain ⟨h1, h2, h3⟩ := checkOrders_nil_err c1 orders orders
  refine ⟨(checkOrders c1 none orders orders).1, ?_, h2, h3⟩
  unfold GetOrders
  simp only [hget, h200, hbody, hdec, ne_eq, not_true_eq_false, if_false]
  exact congrArg (fun x => some (x, c1, w1)) (Prod.ext rfl h1)

/-- C10 fails on the code.  `GET /orders` succeeds with status 200 and the
body decodes to one order, whose `user_id` is 2 while the client's `userID` is
1: `GetOrders` returns a nil list and a nil error, because the `err` handed to
`errors.Wrapf` is nil.  For a list of one order of the client itself it returns
the list and a nil error. -/
theorem GetOrders_foreign_order_nil_error :
    GetOrders (ordersEnv foreignOrdersJSON) 1 (demoClient 3000) world0
      = some ((none, none), demoClient 3000, { now := 100, sent := [0] })
    ∧ foreignOrder.UserID ≠ (demoClient 3000).userID
    ∧ GetOrders (ordersEnv ownOrdersJSON) 1 (demoClient 3000) world0
      = some ((some [ownOrder], none), demoClient 3000, { now := 100, sent := [0] }) := by
  decide

end Bench
